import Mathlib

/-!
Shallow embedding of `src/sync_stats.py` (Minecraft-Statistics-to-MySQL).

Modelling conventions:
* JSON documents are modelled by the inductive `Json`; numbers are modelled
  as integers (the documents handled by the program carry integer counters).
* Python exceptions are modelled with `Except` / explicit error components.
* `CURRENT_TIMESTAMP` is modelled by a `Nat` clock passed to each run.
* The MySQL database is modelled by an explicit state (`DB`), a connection
  with a committed and a pending snapshot (`Conn`: `autocommit=False`;
  `commit` publishes the pending state, closing without commit discards it),
  and write statements that may fail according to an oracle `ok : Nat → Bool`
  consulted at each statement index.
-/

set_option synthInstance.maxSize 1024

deriving instance DecidableEq for Except

namespace SyncStats

/-- JSON values as produced by `json.load`.  Objects model Python dicts
(association lists with unique keys, insertion-ordered). -/
inductive Json where
  | null : Json
  | bool (b : Bool) : Json
  | int (n : Int) : Json
  | str (s : String) : Json
  | arr (xs : List Json) : Json
  | obj (fields : List (String × Json)) : Json

mutual

/-- Decidable equality on `Json` (written out by hand because automatic
derivation does not support the nested `List` occurrences). -/
def Json.decEq : (a b : Json) → Decidable (a = b)
  | .null, .null => isTrue rfl
  | .null, .bool _ => isFalse (fun h => Json.noConfusion h)
  | .null, .int _ => isFalse (fun h => Json.noConfusion h)
  | .null, .str _ => isFalse (fun h => Json.noConfusion h)
  | .null, .arr _ => isFalse (fun h => Json.noConfusion h)
  | .null, .obj _ => isFalse (fun h => Json.noConfusion h)
  | .bool _, .null => isFalse (fun h => Json.noConfusion h)
  | .bool x, .bool y =>
    if h : x = y then isTrue (h ▸ rfl)
    else isFalse (fun hh => h (Json.bool.inj hh))
  | .bool _, .int _ => isFalse (fun h => Json.noConfusion h)
  | .bool _, .str _ => isFalse (fun h => Json.noConfusion h)
  | .bool _, .arr _ => isFalse (fun h => Json.noConfusion h)
  | .bool _, .obj _ => isFalse (fun h => Json.noConfusion h)
  | .int _, .null => isFalse (fun h => Json.noConfusion h)
  | .int _, .bool _ => isFalse (fun h => Json.noConfusion h)
  | .int x, .int y =>
    if h : x = y then isTrue (h ▸ rfl)
    else isFalse (fun hh => h (Json.int.inj hh))
  | .int _, .str _ => isFalse (fun h => Json.noConfusion h)
  | .int _, .arr _ => isFalse (fun h => Json.noConfusion h)
  | .int _, .obj _ => isFalse (fun h => Json.noConfusion h)
  | .str _, .null => isFalse (fun h => Json.noConfusion h)
  | .str _, .bool _ => isFalse (fun h => Json.noConfusion h)
  | .str _, .int _ => isFalse (fun h => Json.noConfusion h)
  | .str x, .str y =>
    if h : x = y then isTrue (h ▸ rfl)
    else isFalse (fun hh => h (Json.str.inj hh))
  | .str _, .arr _ => isFalse (fun h => Json.noConfusion h)
  | .str _, .obj _ => isFalse (fun h => Json.noConfusion h)
  | .arr _, .null => isFalse (fun h => Json.noConfusion h)
  | .arr _, .bool _ => isFalse (fun h => Json.noConfusion h)
  | .arr _, .int _ => isFalse (fun h => Json.noConfusion h)
  | .arr _, .str _ => isFalse (fun h => Json.noConfusion h)
  | .arr xs, .arr ys =>
    match Json.decEqList xs ys with
    | isTrue h => isTrue (h ▸ rfl)
    | isFalse h => isFalse (fun hh => h (Json.arr.inj hh))
  | .arr _, .obj _ => isFalse (fun h => Json.noConfusion h)
  | .obj _, .null => isFalse (fun h => Json.noConfusion h)
  | .obj _, .bool _ => isFalse (fun h => Json.noConfusion h)
  | .obj _, .int _ => isFalse (fun h => Json.noConfusion h)
  | .obj _, .str _ => isFalse (fun h => Json.noConfusion h)
  | .obj _, .arr _ => isFalse (fun h => Json.noConfusion h)
  | .obj xs, .obj ys =>
    match Json.decEqFields xs ys with
    | isTrue h => isTrue (h ▸ rfl)
    | isFalse h => isFalse (fun hh => h (Json.obj.inj hh))

/-- Decidable equality on lists of `Json`. -/
def Json.decEqList : (a b : List Json) → Decidable (a = b)
  | [], [] => isTrue rfl
  | [], _ :: _ => isFalse (fun h => List.noConfusion h)
  | _ :: _, [] => isFalse (fun h => List.noConfusion h)
  | x :: xs, y :: ys =>
    match Json.decEq x y with
    | isFalse h => isFalse (fun hh => h (List.cons.inj hh).1)
    | isTrue h1 =>
      match Json.decEqList xs ys with
      | isTrue h2 => isTrue (by rw [h1, h2])
      | isFalse h2 => isFalse (fun hh => h2 (List.cons.inj hh).2)

/-- Decidable equality on `Json` object field lists. -/
def Json.decEqFields : (a b : List (String × Json)) → Decidable (a = b)
  | [], [] => isTrue rfl
  | [], _ :: _ => isFalse (fun h => List.noConfusion h)
  | _ :: _, [] => isFalse (fun h => List.noConfusion h)
  | (k1, v1) :: xs, (k2, v2) :: ys =>
    if hk : k1 = k2 then
      match Json.decEq v1 v2 with
      | isFalse h => isFalse (fun hh => h (congrArg Prod.snd (List.cons.inj hh).1))
      | isTrue hv =>
        match Json.decEqFields xs ys with
        | isTrue h2 => isTrue (by rw [hk, hv, h2])
        | isFalse h2 => isFalse (fun hh => h2 (List.cons.inj hh).2)
    else isFalse (fun hh => hk (congrArg Prod.fst (List.cons.inj hh).1))

end

instance : DecidableEq Json := Json.decEq

/-- First-match association-list lookup (Python dict lookup; the lists we
build have unique keys, mirroring dicts). -/
def lookupA {κ α : Type} [DecidableEq κ] : List (κ × α) → κ → Option α
  | [], _ => none
  | (k, v) :: rest, key => if k = key then some v else lookupA rest key

/-- Python dict assignment `m[k] = v`: overwriting an existing key keeps its
position, a new key is appended (also `ON DUPLICATE KEY UPDATE` for a table
keyed by `uuid`). -/
def setA {κ α : Type} [DecidableEq κ] (l : List (κ × α)) (k : κ) (v : α) : List (κ × α) :=
  match lookupA l k with
  | none => l ++ [(k, v)]
  | some _ => l.map (fun p => if p.1 = k then (k, v) else p)

/-- Python `str.strip()`-style integer digits: a nonempty list of decimal
digits to its value. -/
def digitsToNat : List Char → Option Nat
  | [] => none
  | cs =>
    cs.foldl (fun acc c =>
      acc.bind (fun n => if c.isDigit then some (10 * n + (c.toNat - 48)) else none))
      (some 0)

/-- Strip leading and trailing whitespace from a character list (Python
`str.strip()` as performed by `int`). -/
def trimChars (cs : List Char) : List Char :=
  ((cs.dropWhile Char.isWhitespace).reverse.dropWhile Char.isWhitespace).reverse

/-- Python `int(s)` on a string: surrounding whitespace stripped, optional
sign, then a nonempty run of decimal digits; anything else raises
`ValueError` (modelled as `none`). -/
def pyStrToInt (s : String) : Option Int :=
  match trimChars s.toList with
  | [] => none
  | c :: rest =>
    if c = '-' then (digitsToNat rest).map (fun n => -(n : Int))
    else if c = '+' then (digitsToNat rest).map (fun n => (n : Int))
    else (digitsToNat (c :: rest)).map (fun n => (n : Int))

/-- Python `int(val)` on a decoded JSON value (`sync_stats.py` line 259):
integers pass through, booleans coerce to 0/1, numeric strings are parsed;
`None`, lists and dicts raise `TypeError`, non-numeric strings raise
`ValueError` — both caught by the caller, modelled as `none`. -/
def pythonInt : Json → Option Int
  | .int n => some n
  | .bool b => some (if b then 1 else 0)
  | .str s => pyStrToInt s
  | .null => none
  | .arr _ => none
  | .obj _ => none

/-- `SECTION_KEYS` (`sync_stats.py` lines 229-239). -/
def SECTION_KEYS : List String :=
  ["minecraft:used", "minecraft:mined", "minecraft:broken", "minecraft:custom",
   "minecraft:killed", "minecraft:crafted", "minecraft:dropped",
   "minecraft:killed_by", "minecraft:picked_up"]

/-- Result of reading one per-player stats file: `json.load` either raises
`JSONDecodeError`/`OSError` (`unreadable`) or yields a decoded value. -/
inductive FileContent where
  | unreadable : FileContent
  | decoded (j : Json) : FileContent
  deriving DecidableEq

/-- Python exceptions that escape the modelled functions. -/
inductive PyErr where
  | attributeError : PyErr
  | typeError : PyErr
  deriving DecidableEq

/-- `Json.isObj`: is this value a Python dict? -/
def Json.isObj : Json → Bool
  | .obj _ => true
  | _ => false

/-- The per-category cleaning loop of `parse_stats` (lines 256-261): keep
exactly the entries whose value coerces to an integer. -/
def cleanedOf (raw_vals : List (String × Json)) : List (String × Int) :=
  raw_vals.filterMap (fun kv => (pythonInt kv.2).map (fun n => (kv.1, n)))

/-- The section-extraction loop of `parse_stats` (lines 252-263) applied to a
decoded `stats` object: one entry per allow-listed category that is present,
dict-shaped, and retains at least one numeric entry. -/
def sectionsOf (sfs : List (String × Json)) : List (String × List (String × Int)) :=
  SECTION_KEYS.filterMap (fun sec =>
    match (lookupA sfs sec).getD (.obj []) with
    | .obj raw_vals =>
      let cleaned := cleanedOf raw_vals
      if cleaned.isEmpty then none else some (sec, cleaned)
    | _ => none)

/-- `parse_stats` (`sync_stats.py` lines 242-265).  A decode/IO failure
returns the skip result (`.ok none`).  `data.get("stats", {})` raises
`AttributeError` when the decoded top-level value is not a dict, and
`stats_section.get(section, {})` raises when the `stats` member is present
but not a dict; both escape uncaught. -/
def parse_stats (file : FileContent) :
    Except PyErr (Option (List (String × List (String × Int)) × Json)) :=
  match file with
  | .unreadable => .ok none
  | .decoded data =>
    match data with
    | .obj dfs =>
      match (lookupA dfs "stats").getD (.obj []) with
      | .obj sfs => .ok (some (sectionsOf sfs, data))
      | _ => .error .attributeError
    | _ => .error .attributeError

/-! ## Database model -/

/-- A row of the `players` table (`ensure_players_table`, lines 103-118):
`uuid` is the key under which the row is stored, `name VARCHAR(32)` is
nullable, `first_seen`/`last_seen` are timestamps. -/
structure PlayerRow where
  name : Option String
  first_seen : Nat
  last_seen : Nat
  deriving DecidableEq

/-- A row of the raw-stats table (`ensure_raw_table`, lines 121-137), keyed
by `uuid`. -/
structure RawRow where
  stats_json : Json
  updated_at : Nat
  deriving DecidableEq

/-- A row of a section table (`ensure_section_table`, lines 140-162):
auto-increment `id`, `uuid`, `stat_key`, `stat_value`, `updated_at`; unique
key `(uuid, stat_key)`. -/
structure SectionRow where
  id : Nat
  uuid : String
  stat_key : String
  stat_value : Int
  updated_at : Nat
  deriving DecidableEq

/-- One section table: its InnoDB auto-increment counter and its rows in
physical insertion order. -/
structure SectionTable where
  nextId : Nat
  rows : List SectionRow
  deriving DecidableEq

/-- The visible database state: the `players` table, the raw-stats table and
the family of section tables indexed by (configured) table name.  The
players/raw tables are association lists keyed by `uuid` (their primary
key). -/
structure DB where
  players : List (String × PlayerRow)
  raw : List (String × RawRow)
  sections : String → SectionTable

/-- SQL `COALESCE(VALUES(name), name)` (line 274). -/
def coalesce (new old : Option String) : Option String :=
  match new with
  | some n => some n
  | none => old

/-- `upsert_player` (lines 268-278): insert the row with the supplied name
and both timestamps set to now; on duplicate key, set the name only when the
new one is non-null, refresh `last_seen`, leave `first_seen` alone. -/
def upsert_player (db : DB) (uuid : String) (name : Option String) (t : Nat) : DB :=
  let row : PlayerRow :=
    match lookupA db.players uuid with
    | none => ⟨name, t, t⟩
    | some r => ⟨coalesce name r.name, r.first_seen, t⟩
  { db with players := setA db.players uuid row }

/-- `upsert_raw` (lines 281-291): unconditional overwrite of the stored
document and its timestamp for this player.  The single raw table
(`mysql_cfg["table"]`) is the `raw` component of `DB`; its configured name
plays no role in the claims, so it is not threaded through. -/
def upsert_raw (db : DB) (uuid : String) (raw_stats : Json) (t : Nat) : DB :=
  { db with raw := setA db.raw uuid ⟨raw_stats, t⟩ }

/-- The `DELETE FROM table WHERE uuid = %s` statement of `upsert_section`
(line 297). -/
def sectionDeleteDb (tbl uuid : String) (db : DB) : DB :=
  { db with sections := fun n =>
      if n = tbl then
        { nextId := (db.sections n).nextId,
          rows := (db.sections n).rows.filter (fun r => r.uuid ≠ uuid) }
      else db.sections n }

/-- The `executemany` INSERT of `upsert_section` (lines 302-313): the rows of
the parsed key/value set are appended with consecutive fresh ids (after the
delete there is no duplicate `(uuid, stat_key)`, so the `ON DUPLICATE KEY`
branch never fires within one call). -/
def sectionInsertDb (tbl uuid : String) (stats : List (String × Int)) (t : Nat) (db : DB) : DB :=
  { db with sections := fun n =>
      if n = tbl then
        { nextId := (db.sections n).nextId + stats.length,
          rows := (db.sections n).rows ++
            stats.enum.map (fun p =>
              ⟨(db.sections n).nextId + p.1, uuid, p.2.1, p.2.2, t⟩) }
      else db.sections n }

/-- `upsert_section` (lines 294-313) as one state transformer: delete every
existing row for this player, then (unless the key/value set is empty)
insert the full current set. -/
def upsert_section (tbl uuid : String) (stats : List (String × Int)) (t : Nat) (db : DB) : DB :=
  let db1 := sectionDeleteDb tbl uuid db
  if stats.isEmpty then db1 else sectionInsertDb tbl uuid stats t db1

/-! ## Connection and transactional batch (`sync`, lines 352-415) -/

/-- A MySQL connection opened with `autocommit=False`: the committed
snapshot visible after `close`, and the pending state the statements of the
open transaction have produced. -/
structure Conn where
  committed : DB
  pending : DB

/-- `conn.commit()`: publish the pending state. -/
def conn_commit (c : Conn) : Conn :=
  { committed := c.pending, pending := c.pending }

/-- A fatal error during the batch: a failed DML statement
(`mysql.connector` error) or an uncaught Python exception. -/
inductive RunErr where
  | dbError : RunErr
  | pyError (e : PyErr) : RunErr
  deriving DecidableEq

/-- Execute one DML statement against the connection.  The oracle `ok`
says whether the statement at index `i` succeeds; a failed statement
changes nothing and raises. -/
def exec1 (ok : Nat → Bool) (f : DB → DB) (c : Conn) (i : Nat) :
    Option RunErr × Conn × Nat :=
  if ok i then (none, { committed := c.committed, pending := f c.pending }, i + 1)
  else (some .dbError, c, i)

/-- The per-file section loop (`sync`, lines 399-403): each parsed category
is looked up in `section_table_map`; a missing or empty table name is
skipped (`if not table: continue`), otherwise `upsert_section` runs its
DELETE and then, if the key/value set is nonempty, its INSERT. -/
def process_sections (ok : Nat → Bool) (tables : String → String) (t : Nat) (uuid : String) :
    List (String × List (String × Int)) → Conn → Nat → Option RunErr × Conn × Nat
  | [], c, i => (none, c, i)
  | (sec, kv) :: rest, c, i =>
    let tbl := tables sec
    if tbl = "" then process_sections ok tables t uuid rest c i
    else
      match exec1 ok (sectionDeleteDb tbl uuid) c i with
      | (some e, c1, i1) => (some e, c1, i1)
      | (none, c1, i1) =>
        if kv.isEmpty then process_sections ok tables t uuid rest c1 i1
        else
          match exec1 ok (sectionInsertDb tbl uuid kv t) c1 i1 with
          | (some e, c2, i2) => (some e, c2, i2)
          | (none, c2, i2) => process_sections ok tables t uuid rest c2 i2

/-- Processing of one successfully parsed file (`sync`, lines 396-403):
upsert the player row, overwrite the raw record, then replace each parsed
section. -/
def process_file (ok : Nat → Bool) (tables : String → String) (uc : String → Option String)
    (t : Nat) (stem : String) (sections : List (String × List (String × Int))) (j : Json)
    (c : Conn) (i : Nat) : Option RunErr × Conn × Nat :=
  match exec1 ok (fun db => upsert_player db stem (uc stem) t) c i with
  | (some e, c1, i1) => (some e, c1, i1)
  | (none, c1, i1) =>
    match exec1 ok (fun db => upsert_raw db stem j t) c1 i1 with
    | (some e, c2, i2) => (some e, c2, i2)
    | (none, c2, i2) => process_sections ok tables t stem sections c2 i2

/-- The batch loop of `sync` (lines 386-407): files are the `*.json` entries
of the stats directory, identified by their stem.  A file whose parse
returns the skip result is passed over without touching the counter; an
uncaught parse exception or a failed statement aborts the loop.  Returns
(error?, connection, statement index, processed count). -/
def sync_batch (ok : Nat → Bool) (tables : String → String) (uc : String → Option String)
    (t : Nat) : List (String × FileContent) → Conn → Nat → Nat →
    Option RunErr × Conn × Nat × Nat
  | [], c, i, n => (none, c, i, n)
  | (stem, fc) :: rest, c, i, n =>
    match parse_stats fc with
    | .error e => (some (.pyError e), c, i, n)
    | .ok none => sync_batch ok tables uc t rest c i n
    | .ok (some (sections, j)) =>
      match process_file ok tables uc t stem sections j c i with
      | (some e, c1, i1) => (some e, c1, i1, n)
      | (none, c1, i1) => sync_batch ok tables uc t rest c1 i1 (n + 1)

/-- The transactional shape of `sync` (lines 386-412): run the batch; on
success call `conn.commit()`; on any fatal error the `finally` closes the
connection without committing, which discards the open transaction.  The
result is the database state visible after the run. -/
def sync_tx (ok : Nat → Bool) (tables : String → String) (uc : String → Option String)
    (t : Nat) (files : List (String × FileContent)) (c : Conn) : DB :=
  match sync_batch ok tables uc t files c 0 0 with
  | (none, c1, _, _) => (conn_commit c1).committed
  | (some _, c1, _, _) => c1.committed

/-- A full pipeline run (data phase) started on a freshly committed state
`db`: both snapshots agree when the transaction opens. -/
def sync_run (tables : String → String) (uc : String → Option String)
    (t : Nat) (files : List (String × FileContent)) (db : DB) : DB :=
  sync_tx (fun _ => true) tables uc t files { committed := db, pending := db }

/-! ## Usercache loader (`load_usercache`, lines 69-88) -/

/-- What reading `usercache.json` can yield: the file may be missing
(`path.exists()` false), unreadable (`OSError`), undecodable
(`JSONDecodeError`), or decoded to a JSON value. -/
inductive UsercacheFile where
  | missing : UsercacheFile
  | unreadable : UsercacheFile
  | invalidJson : UsercacheFile
  | decoded (j : Json) : UsercacheFile

/-- Does `p` occur at the head of `cs`? -/
def leadsWith : List Char → List Char → Bool
  | [], _ => true
  | _ :: _, [] => false
  | p :: ps, c :: cs => p = c && leadsWith ps cs

/-- Does `pat` occur anywhere in `hay`? -/
def containsSub : List Char → List Char → Bool
  | _, [] => true
  | [], _ :: _ => false
  | c :: rest, p :: ps => leadsWith (p :: ps) (c :: rest) || containsSub rest (p :: ps)

/-- Python substring test `sub in s` for nonempty `sub`. -/
def strContains (s sub : String) : Bool :=
  containsSub s.toList sub.toList

/-- One iteration of the `for entry in entries` loop (lines 80-82).
`"uuid" in entry` is dict-key membership for dicts, substring search for
strings, element membership for lists, and raises `TypeError` otherwise;
`entry["uuid"]` then raises `TypeError` for strings and lists. -/
def uc_entry_step (m : List (Json × Json)) : Json → Except PyErr (List (Json × Json))
  | .obj fields =>
    match lookupA fields "uuid", lookupA fields "name" with
    | some u, some nm => .ok (setA m u nm)
    | _, _ => .ok m
  | .str s =>
    if strContains s "uuid" && strContains s "name" then .error .typeError else .ok m
  | .arr xs =>
    if (Json.str "uuid") ∈ xs ∧ (Json.str "name") ∈ xs then .error .typeError else .ok m
  | _ => .error .typeError

/-- The entry loop over a decoded JSON array. -/
def uc_fold : List Json → List (Json × Json) → Except PyErr (List (Json × Json))
  | [], m => .ok m
  | e :: rest, m =>
    match uc_entry_step m e with
    | .error err => .error err
    | .ok m1 => uc_fold rest m1

/-- Iterating a decoded JSON object: Python iterates the keys, which are
strings; a key containing both substrings would then be indexed and raise. -/
def uc_fold_keys : List (String × Json) → Except PyErr (List (Json × Json))
  | [] => .ok []
  | (k, _) :: rest =>
    if strContains k "uuid" && strContains k "name" then .error .typeError
    else uc_fold_keys rest

/-- Iterating a decoded JSON string: Python iterates single-character
strings, which can never contain the four-character substrings. -/
def uc_fold_chars : List Char → Except PyErr (List (Json × Json))
  | [] => .ok []
  | c :: rest =>
    if strContains (String.mk [c]) "uuid" && strContains (String.mk [c]) "name" then
      .error .typeError
    else uc_fold_chars rest

/-- `load_usercache` (lines 69-88).  A missing file returns `{}` at once;
`OSError` and `JSONDecodeError` are caught and return `{}`; any other
exception raised while iterating the decoded document escapes uncaught. -/
def load_usercache : UsercacheFile → Except PyErr (List (Json × Json))
  | .missing => .ok []
  | .unreadable => .ok []
  | .invalidJson => .ok []
  | .decoded j =>
    match j with
    | .arr es => uc_fold es []
    | .obj fields => uc_fold_keys fields
    | .str s => uc_fold_chars s.toList
    | _ => .error .typeError

/-! ## Source acquisition (`maybe_fetch_world_via_sftp`, lines 165-226) -/

/-- The `[sftp]` configuration section (all fields default to empty/false,
`load_config` lines 52-61). -/
structure SftpCfg where
  enabled : Bool
  host : String
  port : Nat
  user : String
  password : String
  remote_root_path : String
  world_name : String
  remote_world_path : String

/-- Python `str.rstrip('/')`. -/
def rstripSlash (s : String) : String :=
  String.mk (s.toList.reverse.dropWhile (fun c => c = '/')).reverse

/-- Python `str.strip('/')`. -/
def stripSlash (s : String) : String :=
  String.mk (((s.toList.dropWhile (fun c => c = '/')).reverse.dropWhile
    (fun c => c = '/')).reverse)

/-- The remote world path that the fetch actually uses (lines 169-174): the
explicit `remote_world_path` is the starting value, but whenever both
`world_name` and `remote_root_path` are nonempty the composed
`root/world-name` path overwrites it. -/
def remote_world_of (cfg : SftpCfg) : String :=
  if cfg.world_name ≠ "" ∧ cfg.remote_root_path ≠ "" then
    rstripSlash cfg.remote_root_path ++ "/" ++ stripSlash cfg.world_name
  else cfg.remote_world_path

/-- Behaviour of the remote side for one run: whether the TCP transport
construction, the SSH authentication, the optional usercache download and
the stats-directory listing succeed, the listed entries, and per-file
download success. -/
structure RemoteWorld where
  transportInitOk : Bool
  authOk : Bool
  usercacheOk : Bool
  listingOk : Bool
  entries : List String
  fetchOk : String → Bool

/-- Fatal outcomes of the fetch. -/
inductive FetchErr where
  | connectError : FetchErr
  | authError : FetchErr
  | listError : FetchErr
  | getError : FetchErr
  deriving DecidableEq

/-- What a successful fetch staged into the temporary mirror. -/
structure Fetched where
  usercacheFetched : Bool
  statsFiles : List String
  deriving DecidableEq

/-- `maybe_fetch_world_via_sftp` (lines 165-226).  The returned `Bool` says
whether the scoped temporary directory still exists when the function
returns or its exception propagates.  `paramiko.Transport((host, port))`
(line 189) opens the TCP connection and sits before the `try` whose
handler removes `temp_root`, so a failure there leaves the directory
behind; failures from `transport.connect`, `sftp.listdir` or a stats-file
`sftp.get` run the `except` handler, which removes it.  A failed usercache
download is caught and tolerated (lines 198-203). -/
def maybe_fetch_world_via_sftp (cfg : SftpCfg) (w : RemoteWorld) :
    Except FetchErr (Option Fetched) × Bool :=
  if !cfg.enabled then (.ok none, false)
  else
    let remote_world := remote_world_of cfg
    if cfg.host = "" ∨ remote_world = "" then (.ok none, false)
    else if !w.transportInitOk then (.error .connectError, true)
    else if !w.authOk then (.error .authError, false)
    else if !w.listingOk then (.error .listError, false)
    else
      let jsonEntries := w.entries.filter (fun e => ".json".toList.isSuffixOf e.toList)
      if jsonEntries.all w.fetchOk then
        (.ok (some { usercacheFetched :=
                       if cfg.remote_root_path = "" then false else w.usercacheOk,
                     statsFiles := jsonEntries }), true)
      else (.error .getError, false)

/-- `sync` around the fetch (lines 328-343 and 411-415): a fetch failure
propagates before the MySQL connection is even opened, so the database is
untouched and the temporary directory is left exactly as the fetch left it
(the `except` branch of `sync` cannot clean up: `cleanup_fn` is only
assigned after a successful fetch).  On a successful acquisition the data
phase runs and the `finally` removes the temporary directory. -/
def sync_with_fetch (cfg : SftpCfg) (w : RemoteWorld) (tables : String → String)
    (uc : String → Option String) (t : Nat) (files : List (String × FileContent))
    (db : DB) : Except FetchErr DB × Bool :=
  match maybe_fetch_world_via_sftp cfg w with
  | (.error e, tmp) => (.error e, tmp)
  | (.ok _, _) => (.ok (sync_run tables uc t files db), false)

/-! ## Observation helpers and pure reformulations of the batch -/

/-- The player row stored for `u`. -/
def playersOf (db : DB) (u : String) : Option PlayerRow :=
  lookupA db.players u

/-- The raw record stored for `u`. -/
def rawOf (db : DB) (u : String) : Option RawRow :=
  lookupA db.raw u

/-- All rows of section table `tbl` belonging to player `u`, in physical
order. -/
def rowsFor (db : DB) (tbl u : String) : List SectionRow :=
  (db.sections tbl).rows.filter (fun r => r.uuid = u)

/-- The `(stat_key, stat_value)` content of player `u`'s rows in section
table `tbl`. -/
def coreRows (db : DB) (tbl u : String) : List (String × Int) :=
  (rowsFor db tbl u).map (fun r => (r.stat_key, r.stat_value))

/-- Does `parse_stats` return (rather than raise) on this file? -/
def noRaise (fc : FileContent) : Prop :=
  ∃ r, parse_stats fc = .ok r

/-- The number of files of the batch that parse to a result (the files that
`sync` counts as processed, line 405). -/
def parsedCount (files : List (String × FileContent)) : Nat :=
  (files.filter (fun f =>
    match parse_stats f.2 with
    | .ok (some _) => true
    | _ => false)).length

/-- The pure effect of the per-file section loop on the pending state (what
`process_sections` computes when every statement succeeds). -/
def apply_sections (tables : String → String) (t : Nat) (u : String) :
    List (String × List (String × Int)) → DB → DB
  | [], db => db
  | (sec, kv) :: rest, db =>
    let tbl := tables sec
    if tbl = "" then apply_sections tables t u rest db
    else
      let db1 := sectionDeleteDb tbl u db
      let db2 := if kv.isEmpty then db1 else sectionInsertDb tbl u kv t db1
      apply_sections tables t u rest db2

/-- The pure effect of processing one parsed file. -/
def apply_file (tables : String → String) (uc : String → Option String) (t : Nat)
    (stem : String) (sections : List (String × List (String × Int))) (j : Json)
    (db : DB) : DB :=
  apply_sections tables t stem sections
    (upsert_raw (upsert_player db stem (uc stem) t) stem j t)

/-- The pure effect of the whole batch when no parse raises and every
statement succeeds (a raising file is mapped to the identity here; the
lemmas relating this to `sync_batch` assume no file raises). -/
def apply_batch (tables : String → String) (uc : String → Option String) (t : Nat) :
    List (String × FileContent) → DB → DB
  | [], db => db
  | (stem, fc) :: rest, db =>
    match parse_stats fc with
    | .error _ => db
    | .ok none => apply_batch tables uc t rest db
    | .ok (some (sections, j)) =>
      apply_batch tables uc t rest (apply_file tables uc t stem sections j db)

/-- Does processing this file issue writes for player `u`?  Only a file
whose stem is `u` and whose parse yields a result does. -/
def touches (f : String × FileContent) (u : String) : Prop :=
  f.1 = u ∧ ∃ S j, parse_stats f.2 = .ok (some (S, j))

/-! ## Spec-side definition for the parser refinement claim -/

/-- Following the spec's words (§4.3): for category `c`, the entries of the
nested statistics object under `c` whose value coerces to an integer, in
document order; empty when the category is absent or not shaped as a
key→value mapping. -/
def specRetained (data : Json) (c : String) : List (String × Int) :=
  match data with
  | .obj dfs =>
    match (lookupA dfs "stats").getD (.obj []) with
    | .obj sfs =>
      match lookupA sfs c with
      | some (.obj entries) => cleanedOf entries
      | _ => []
    | _ => []
  | _ => []

/-- The retained entries of one category as computed inside `parse_stats`
before the emptiness test: the category value defaults to `{}` when absent
and contributes nothing when not dict-shaped. -/
def retainedOf (sfs : List (String × Json)) (c : String) : List (String × Int) :=
  match (lookupA sfs c).getD (.obj []) with
  | .obj raw_vals => cleanedOf raw_vals
  | _ => []

/-- A usercache record that carries both an identifier and a name, as the
spec describes them (§4.2); records missing either field yield `none` and
are skipped. -/
def completeRecord : Json → Option (Json × Json)
  | .obj fields =>
    match lookupA fields "uuid", lookupA fields "name" with
    | some u, some nm => some (u, nm)
    | _, _ => none
  | _ => none

/-- The name the identifier→name mapping described by the spec associates
to identifier `u`: the name of the last complete record for `u` (later
records overwrite earlier ones). -/
def lastComplete : List Json → Json → Option Json
  | [], _ => none
  | e :: rest, u =>
    match lastComplete rest u with
    | some v => some v
    | none =>
      match completeRecord e with
      | some (k, v) => if k = u then some v else none
      | none => none

/-- First-some choice on options. -/
def oor {α : Type} : Option α → Option α → Option α
  | some v, _ => some v
  | none, o => o

/-! ## Concrete fixtures used by witnesses and counterexamples -/

/-- The fields of the Scenario A document of the spec:
`{"stats":{"minecraft:mined":{"minecraft:stone":42,"minecraft:dirt":"oops"}}}`. -/
def scenarioA_fields : List (String × Json) :=
  [("stats", .obj [("minecraft:mined",
    .obj [("minecraft:stone", .int 42), ("minecraft:dirt", .str "oops")])])]

/-- The Scenario A document itself. -/
def scenarioA_doc : Json := .obj scenarioA_fields

/-- A database with no rows (fresh schema). -/
def emptyDB : DB :=
  { players := [], raw := [], sections := fun _ => ⟨0, []⟩ }

/-- The default section-table names of `load_config` (lines 42-50), as the
map built in `sync` (lines 370-380); unknown keys have no table. -/
def defaultTables : String → String := fun s =>
  if s = "minecraft:used" then "player_stats_used"
  else if s = "minecraft:mined" then "player_stats_mined"
  else if s = "minecraft:broken" then "player_stats_broken"
  else if s = "minecraft:custom" then "player_stats_custom"
  else if s = "minecraft:killed" then "player_stats_killed"
  else if s = "minecraft:crafted" then "player_stats_crafted"
  else if s = "minecraft:dropped" then "player_stats_dropped"
  else if s = "minecraft:killed_by" then "player_stats_killed_by"
  else if s = "minecraft:picked_up" then "player_stats_picked_up"
  else ""

/-- One-file batch holding the Scenario A document. -/
def exFiles : List (String × FileContent) :=
  [("11111111-1111-1111-1111-111111111111", .decoded scenarioA_doc)]

/-- An enabled SFTP configuration with an explicit remote world path. -/
def exSftpCfg : SftpCfg :=
  { enabled := true, host := "mc.example.com", port := 22, user := "sync",
    password := "pw", remote_root_path := "", world_name := "",
    remote_world_path := "/srv/world" }

/-- A remote side whose TCP connection cannot be established
(`paramiko.Transport((host, port))` raises). -/
def exRemoteDown : RemoteWorld :=
  { transportInitOk := false, authOk := true, usercacheOk := true,
    listingOk := true, entries := [], fetchOk := fun _ => true }

/-- A remote side that refuses the SSH authentication. -/
def exRemoteAuthFail : RemoteWorld :=
  { transportInitOk := true, authOk := false, usercacheOk := true,
    listingOk := true, entries := [], fetchOk := fun _ => true }

/-- A remote side whose stats-directory listing fails. -/
def exRemoteListFail : RemoteWorld :=
  { transportInitOk := true, authOk := true, usercacheOk := true,
    listingOk := false, entries := [], fetchOk := fun _ => true }

/-- An SFTP configuration carrying both a root-plus-world-name pair and an
explicit remote world path. -/
def exSftpCfg2 : SftpCfg :=
  { enabled := true, host := "mc.example.com", port := 22, user := "sync",
    password := "pw", remote_root_path := "/srv/mc/", world_name := "world",
    remote_world_path := "/explicit/world" }

/-- A players table holding one player named Alice, first seen at 1, last
seen at 2. -/
def exDB5 : DB :=
  { players := [("p", ⟨some "Alice", 1, 2⟩)], raw := [], sections := fun _ => ⟨0, []⟩ }

/-- A usercache document: one complete record, one record missing its name,
and a later complete record overriding the first identifier. -/
def exUsercacheEntries : List Json :=
  [.obj [("uuid", .str "u1"), ("name", .str "Alice")],
   .obj [("uuid", .str "u2")],
   .obj [("uuid", .str "u1"), ("name", .str "Alicia")]]

/-! ## Lemmas: association lists -/

theorem oor_none {α : Type} (o : Option α) : oor none o = o := rfl

theorem oor_some {α : Type} (v : α) (o : Option α) : oor (some v) o = some v := rfl

theorem lookupA_append {κ α : Type} [DecidableEq κ] (l1 l2 : List (κ × α)) (u : κ) :
    lookupA (l1 ++ l2) u = oor (lookupA l1 u) (lookupA l2 u) := by
  induction l1 with
  | nil => simp [lookupA, oor]
  | cons p rest ih =>
    obtain ⟨k0, v0⟩ := p
    by_cases h : k0 = u
    · simp [lookupA, h, oor]
    · simp [lookupA, h, ih]

theorem lookupA_mapset {κ α : Type} [DecidableEq κ] (l : List (κ × α)) (k : κ) (v : α)
    (u : κ) :
    lookupA (l.map (fun p => if p.1 = k then (k, v) else p)) u =
      if k = u then (lookupA l k).map (fun _ => v) else lookupA l u := by
  induction l with
  | nil => simp [lookupA]
  | cons p rest ih =>
    obtain ⟨k0, v0⟩ := p
    rw [List.map_cons]
    by_cases h0 : k0 = k
    · subst h0
      have hh : (if ((k0, v0) : κ × α).1 = k0 then (k0, v) else (k0, v0)) = (k0, v) := by
        simp
      rw [hh]
      by_cases h1 : k0 = u
      · subst h1
        simp [lookupA]
      · simp [lookupA, h1, ih]
    · have hh : (if ((k0, v0) : κ × α).1 = k then (k, v) else (k0, v0)) = (k0, v0) := by
        simp [h0]
      rw [hh]
      by_cases h1 : k0 = u
      · subst h1
        have hk : ¬ k = k0 := fun he => h0 he.symm
        simp [lookupA, hk]
      · simp [lookupA, h0, h1, ih]

theorem lookupA_setA {κ α : Type} [DecidableEq κ] (l : List (κ × α)) (k : κ) (v : α)
    (u : κ) :
    lookupA (setA l k v) u = if k = u then some v else lookupA l u := by
  unfold setA
  cases hk : lookupA l k with
  | none =>
    rw [lookupA_append]
    by_cases h : k = u
    · subst h
      rw [hk]
      simp [lookupA, oor]
    · simp [lookupA, h, if_neg h]
      cases lookupA l u <;> simp [oor]
  | some w =>
    rw [lookupA_mapset, hk]
    rfl

/-! ## Lemmas: list filtering -/

theorem filter_filter_none {α : Type} (l : List α) (p q : α → Bool)
    (h : ∀ a, p a = true → q a = false) : (l.filter p).filter q = [] := by
  induction l with
  | nil => rfl
  | cons a rest ih =>
    by_cases hp : p a = true
    · have hq := h a hp
      simp [List.filter, hp, hq, ih]
    · simp [List.filter, Bool.eq_false_iff.2 hp, ih]

theorem filter_filter_sub {α : Type} (l : List α) (p q : α → Bool)
    (h : ∀ a, q a = true → p a = true) : (l.filter p).filter q = l.filter q := by
  induction l with
  | nil => rfl
  | cons a rest ih =>
    by_cases hp : p a = true
    · simp [List.filter, hp, ih]
    · have hq : q a = false := by
        cases hqa : q a
        · rfl
        · exact absurd (h a hqa) hp
      simp [List.filter, Bool.eq_false_iff.2 hp, hq, ih]

theorem filter_all_true {α : Type} (l : List α) (p : α → Bool)
    (h : ∀ a ∈ l, p a = true) : l.filter p = l := by
  induction l with
  | nil => rfl
  | cons a rest ih =>
    simp [List.filter, h a (List.mem_cons_self a rest),
      ih (fun b hb => h b (List.mem_cons_of_mem a hb))]

theorem filter_all_false {α : Type} (l : List α) (p : α → Bool)
    (h : ∀ a ∈ l, p a = false) : l.filter p = [] := by
  induction l with
  | nil => rfl
  | cons a rest ih =>
    simp [List.filter, h a (List.mem_cons_self a rest),
      ih (fun b hb => h b (List.mem_cons_of_mem a hb))]

/-- The inserted rows of `sectionInsertDb` project back to the key/value
list. -/
theorem enumFrom_rows_core (kv : List (String × Int)) (base off t' : Nat) (u : String) :
    (((List.enumFrom base kv).map
        (fun p => (⟨off + p.1, u, p.2.1, p.2.2, t'⟩ : SectionRow))).map
          (fun r => (r.stat_key, r.stat_value))) = kv := by
  induction kv generalizing base with
  | nil => rfl
  | cons x xs ih => simp [List.enumFrom, ih]

/-! ## Lemmas: effect of single statements -/

theorem playersOf_upsert_player (db : DB) (q : String) (nm : Option String) (t : Nat)
    (u : String) :
    playersOf (upsert_player db q nm t) u =
      if q = u then
        some (match lookupA db.players q with
          | none => ⟨nm, t, t⟩
          | some r => ⟨coalesce nm r.name, r.first_seen, t⟩)
      else playersOf db u := by
  unfold playersOf upsert_player
  dsimp only
  rw [lookupA_setA]

theorem raw_upsert_player (db : DB) (q : String) (nm : Option String) (t : Nat) :
    (upsert_player db q nm t).raw = db.raw := rfl

theorem sections_upsert_player (db : DB) (q : String) (nm : Option String) (t : Nat) :
    (upsert_player db q nm t).sections = db.sections := rfl

theorem rawOf_upsert_raw (db : DB) (q : String) (j : Json) (t : Nat) (u : String) :
    rawOf (upsert_raw db q j t) u = if q = u then some ⟨j, t⟩ else rawOf db u := by
  unfold rawOf upsert_raw
  dsimp only
  rw [lookupA_setA]

theorem players_upsert_raw (db : DB) (q : String) (j : Json) (t : Nat) :
    (upsert_raw db q j t).players = db.players := rfl

theorem sections_upsert_raw (db : DB) (q : String) (j : Json) (t : Nat) :
    (upsert_raw db q j t).sections = db.sections := rfl

theorem players_sectionDeleteDb (tbl q : String) (db : DB) :
    (sectionDeleteDb tbl q db).players = db.players := rfl

theorem raw_sectionDeleteDb (tbl q : String) (db : DB) :
    (sectionDeleteDb tbl q db).raw = db.raw := rfl

theorem players_sectionInsertDb (tbl q : String) (kv : List (String × Int)) (t : Nat)
    (db : DB) : (sectionInsertDb tbl q kv t db).players = db.players := rfl

theorem raw_sectionInsertDb (tbl q : String) (kv : List (String × Int)) (t : Nat)
    (db : DB) : (sectionInsertDb tbl q kv t db).raw = db.raw := rfl

theorem sections_sectionDeleteDb_ne (tbl q : String) (db : DB) (n : String)
    (hn : n ≠ tbl) : (sectionDeleteDb tbl q db).sections n = db.sections n := by
  simp [sectionDeleteDb, hn]

theorem sections_sectionInsertDb_ne (tbl q : String) (kv : List (String × Int)) (t : Nat)
    (db : DB) (n : String) (hn : n ≠ tbl) :
    (sectionInsertDb tbl q kv t db).sections n = db.sections n := by
  simp [sectionInsertDb, hn]

theorem rowsFor_sectionDeleteDb_self (tbl q : String) (db : DB) :
    rowsFor (sectionDeleteDb tbl q db) tbl q = [] := by
  unfold rowsFor sectionDeleteDb
  dsimp only
  rw [if_pos rfl]
  dsimp only
  apply filter_filter_none
  intro a hp
  simp only [decide_eq_true_eq] at *
  simp only [decide_eq_false_iff_not]
  intro he
  rw [he] at hp
  simp at hp

theorem rowsFor_sectionDeleteDb_other_user (tbl q : String) (db : DB) (u : String)
    (hu : u ≠ q) : rowsFor (sectionDeleteDb tbl q db) tbl u = rowsFor db tbl u := by
  unfold rowsFor sectionDeleteDb
  dsimp only
  rw [if_pos rfl]
  dsimp only
  apply filter_filter_sub
  intro a hq
  simp only [decide_eq_true_eq] at hq
  simp only [decide_eq_true_eq]
  rw [hq]
  exact hu

theorem rowsFor_sectionDeleteDb_ne (tbl q : String) (db : DB) (n u : String)
    (hn : n ≠ tbl) : rowsFor (sectionDeleteDb tbl q db) n u = rowsFor db n u := by
  unfold rowsFor
  rw [sections_sectionDeleteDb_ne tbl q db n hn]

theorem rowsFor_sectionInsertDb_self (tbl q : String) (kv : List (String × Int)) (t : Nat)
    (db : DB) :
    rowsFor (sectionInsertDb tbl q kv t db) tbl q =
      rowsFor db tbl q ++ kv.enum.map
        (fun p => ⟨(db.sections tbl).nextId + p.1, q, p.2.1, p.2.2, t⟩) := by
  unfold rowsFor sectionInsertDb
  dsimp only
  rw [if_pos rfl]
  dsimp only
  rw [List.filter_append]
  congr 1
  apply filter_all_true
  intro a ha
  simp only [List.mem_map] at ha
  obtain ⟨p, _, hpa⟩ := ha
  simp [← hpa]

theorem rowsFor_sectionInsertDb_other_user (tbl q : String) (kv : List (String × Int))
    (t : Nat) (db : DB) (u : String) (hu : u ≠ q) :
    rowsFor (sectionInsertDb tbl q kv t db) tbl u = rowsFor db tbl u := by
  unfold rowsFor sectionInsertDb
  dsimp only
  rw [if_pos rfl]
  dsimp only
  rw [List.filter_append]
  have : (kv.enum.map
      (fun p => (⟨(db.sections tbl).nextId + p.1, q, p.2.1, p.2.2, t⟩ : SectionRow))).filter
        (fun r => r.uuid = u) = [] := by
    apply filter_all_false
    intro a ha
    simp only [List.mem_map] at ha
    obtain ⟨p, _, hpa⟩ := ha
    simp [← hpa]
    intro he
    exact absurd he.symm hu
  rw [this, List.append_nil]

theorem rowsFor_sectionInsertDb_ne (tbl q : String) (kv : List (String × Int)) (t : Nat)
    (db : DB) (n u : String) (hn : n ≠ tbl) :
    rowsFor (sectionInsertDb tbl q kv t db) n u = rowsFor db n u := by
  unfold rowsFor
  rw [sections_sectionInsertDb_ne tbl q kv t db n hn]

/-- Delete-then-insert leaves exactly the inserted key/value set for the
player (`upsert_section`'s full-replacement shape). -/
theorem coreRows_delete_insert (tbl q : String) (kv : List (String × Int)) (t : Nat)
    (db : DB) :
    coreRows (sectionInsertDb tbl q kv t (sectionDeleteDb tbl q db)) tbl q = kv := by
  unfold coreRows
  rw [rowsFor_sectionInsertDb_self, rowsFor_sectionDeleteDb_self]
  rw [List.nil_append]
  exact enumFrom_rows_core kv 0 _ t q

/-! ## Lemmas: the per-file section loop -/

theorem players_apply_sections (tables : String → String) (t : Nat) (u : String)
    (S : List (String × List (String × Int))) (db : DB) :
    (apply_sections tables t u S db).players = db.players := by
  induction S generalizing db with
  | nil => rfl
  | cons e rest ih =>
    obtain ⟨sec, kv⟩ := e
    unfold apply_sections
    dsimp only
    by_cases h : tables sec = ""
    · rw [if_pos h]
      exact ih db
    · rw [if_neg h]
      by_cases hk : kv.isEmpty
      · rw [if_pos hk, ih, players_sectionDeleteDb]
      · rw [if_neg hk, ih, players_sectionInsertDb, players_sectionDeleteDb]

theorem raw_apply_sections (tables : String → String) (t : Nat) (u : String)
    (S : List (String × List (String × Int))) (db : DB) :
    (apply_sections tables t u S db).raw = db.raw := by
  induction S generalizing db with
  | nil => rfl
  | cons e rest ih =>
    obtain ⟨sec, kv⟩ := e
    unfold apply_sections
    dsimp only
    by_cases h : tables sec = ""
    · rw [if_pos h]
      exact ih db
    · rw [if_neg h]
      by_cases hk : kv.isEmpty
      · rw [if_pos hk, ih, raw_sectionDeleteDb]
      · rw [if_neg hk, ih, raw_sectionInsertDb, raw_sectionDeleteDb]

theorem rowsFor_apply_sections_other_user (tables : String → String) (t : Nat)
    (u : String) (S : List (String × List (String × Int))) (db : DB) (n u2 : String)
    (hu : u2 ≠ u) :
    rowsFor (apply_sections tables t u S db) n u2 = rowsFor db n u2 := by
  induction S generalizing db with
  | nil => rfl
  | cons e rest ih =>
    obtain ⟨sec, kv⟩ := e
    unfold apply_sections
    dsimp only
    by_cases h : tables sec = ""
    · rw [if_pos h]
      exact ih db
    · rw [if_neg h]
      have hstep : ∀ db1 : DB,
          rowsFor (if kv.isEmpty then sectionDeleteDb (tables sec) u db1
            else sectionInsertDb (tables sec) u kv t (sectionDeleteDb (tables sec) u db1))
            n u2 = rowsFor db1 n u2 := by
        intro db1
        by_cases hn : n = tables sec
        · subst hn
          by_cases hk : kv.isEmpty
          · rw [if_pos hk, rowsFor_sectionDeleteDb_other_user _ _ _ _ hu]
          · rw [if_neg hk, rowsFor_sectionInsertDb_other_user _ _ _ _ _ _ hu,
              rowsFor_sectionDeleteDb_other_user _ _ _ _ hu]
        · by_cases hk : kv.isEmpty
          · rw [if_pos hk, rowsFor_sectionDeleteDb_ne _ _ _ _ _ hn]
          · rw [if_neg hk, rowsFor_sectionInsertDb_ne _ _ _ _ _ _ _ hn,
              rowsFor_sectionDeleteDb_ne _ _ _ _ _ hn]
      rw [ih, hstep]

theorem sections_apply_sections_untouched (tables : String → String) (t : Nat)
    (u : String) (S : List (String × List (String × Int))) (db : DB) (n : String)
    (h : ∀ e ∈ S, tables e.1 = "" ∨ tables e.1 ≠ n) :
    (apply_sections tables t u S db).sections n = db.sections n := by
  induction S generalizing db with
  | nil => rfl
  | cons e rest ih =>
    obtain ⟨sec, kv⟩ := e
    unfold apply_sections
    dsimp only
    have hrest : ∀ e ∈ rest, tables e.1 = "" ∨ tables e.1 ≠ n := by
      intro e he
      exact h e (List.mem_cons_of_mem _ he)
    by_cases hh : tables sec = ""
    · rw [if_pos hh]
      exact ih db hrest
    · rw [if_neg hh]
      have hn : n ≠ tables sec := by
        rcases h (sec, kv) (List.mem_cons_self _ _) with h1 | h1
        · exact absurd h1 hh
        · exact fun he => h1 he.symm
      rw [ih _ hrest]
      by_cases hk : kv.isEmpty
      · rw [if_pos hk, sections_sectionDeleteDb_ne _ _ _ _ hn]
      · rw [if_neg hk, sections_sectionInsertDb_ne _ _ _ _ _ _ hn,
          sections_sectionDeleteDb_ne _ _ _ _ hn]

theorem coreRows_apply_sections (tables : String → String) (t : Nat) (u : String)
    (S : List (String × List (String × Int))) (db : DB)
    (hnodup : (S.map Prod.fst).Nodup)
    (hinj : ∀ a ∈ S.map Prod.fst, ∀ b ∈ S.map Prod.fst, tables a = tables b → a = b)
    (hne : ∀ a ∈ S.map Prod.fst, tables a ≠ "")
    (c : String) (kv : List (String × Int)) (hmem : (c, kv) ∈ S) :
    coreRows (apply_sections tables t u S db) (tables c) u = kv := by
  induction S generalizing db with
  | nil => exact absurd hmem (List.not_mem_nil _)
  | cons e rest ih =>
    obtain ⟨sec, kv0⟩ := e
    have hsec_ne : tables sec ≠ "" := hne sec (List.mem_map_of_mem Prod.fst (List.mem_cons_self _ _))
    have hinj' : ∀ a ∈ rest.map Prod.fst, ∀ b ∈ rest.map Prod.fst,
        tables a = tables b → a = b := by
      intro a ha b hb
      exact hinj a (List.mem_cons_of_mem _ ha) b (List.mem_cons_of_mem _ hb)
    have hne' : ∀ a ∈ rest.map Prod.fst, tables a ≠ "" := by
      intro a ha
      exact hne a (List.mem_cons_of_mem _ ha)
    have hnd : (sec :: rest.map Prod.fst).Nodup := hnodup
    have hnotin : sec ∉ rest.map Prod.fst := (List.nodup_cons.1 hnd).1
    have hnodup' : (rest.map Prod.fst).Nodup := (List.nodup_cons.1 hnd).2
    rcases List.mem_cons.1 hmem with heq | hrest_mem
    · -- the head is the category we are tracking
      have hc : c = sec := congrArg Prod.fst heq
      have hkv : kv = kv0 := congrArg Prod.snd heq
      subst hc
      subst hkv
      unfold apply_sections
      dsimp only
      rw [if_neg hsec_ne]
      have huntouched : ∀ e ∈ rest, tables e.1 = "" ∨ tables e.1 ≠ tables c := by
        intro e he
        right
        intro habs
        have he1 : e.1 ∈ ((c, kv) :: rest).map Prod.fst :=
          List.mem_map_of_mem Prod.fst (List.mem_cons_of_mem _ he)
        have hc1 : c ∈ ((c, kv) :: rest).map Prod.fst :=
          List.mem_map_of_mem Prod.fst (List.mem_cons_self _ _)
        have hec := hinj e.1 he1 c hc1 habs
        exact hnotin (hec ▸ List.mem_map_of_mem Prod.fst he)
      unfold coreRows rowsFor
      rw [sections_apply_sections_untouched tables t u rest _ (tables c) huntouched]
      by_cases hk : kv.isEmpty
      · rw [if_pos hk]
        have hkv0 : kv = [] := List.isEmpty_iff.1 hk
        subst hkv0
        have h0 := rowsFor_sectionDeleteDb_self (tables c) u db
        unfold rowsFor at h0
        rw [h0]
        rfl
      · rw [if_neg hk]
        have h0 := coreRows_delete_insert (tables c) u kv t db
        unfold coreRows rowsFor at h0
        exact h0
    · -- the tracked category sits in the tail
      unfold apply_sections
      dsimp only
      rw [if_neg hsec_ne]
      exact ih _ hnodup' hinj' hne' hrest_mem

/-! ## Lemmas: one processed file -/

theorem playersOf_apply_file (tables : String → String) (uc : String → Option String)
    (t : Nat) (stem : String) (S : List (String × List (String × Int))) (j : Json)
    (db : DB) (u : String) :
    playersOf (apply_file tables uc t stem S j db) u =
      if stem = u then
        some (match playersOf db stem with
          | none => ⟨uc stem, t, t⟩
          | some r => ⟨coalesce (uc stem) r.name, r.first_seen, t⟩)
      else playersOf db u := by
  unfold apply_file
  unfold playersOf
  rw [players_apply_sections, players_upsert_raw]
  exact playersOf_upsert_player db stem (uc stem) t u

theorem rawOf_apply_file (tables : String → String) (uc : String → Option String)
    (t : Nat) (stem : String) (S : List (String × List (String × Int))) (j : Json)
    (db : DB) (u : String) :
    rawOf (apply_file tables uc t stem S j db) u =
      if stem = u then some ⟨j, t⟩ else rawOf db u := by
  unfold apply_file
  unfold rawOf
  rw [raw_apply_sections]
  have h := rawOf_upsert_raw (upsert_player db stem (uc stem) t) stem j t u
  unfold rawOf at h
  rw [h, raw_upsert_player]

theorem rowsFor_apply_file_other_user (tables : String → String)
    (uc : String → Option String) (t : Nat) (stem : String)
    (S : List (String × List (String × Int))) (j : Json) (db : DB) (n u : String)
    (hu : u ≠ stem) :
    rowsFor (apply_file tables uc t stem S j db) n u = rowsFor db n u := by
  unfold apply_file
  rw [rowsFor_apply_sections_other_user _ _ _ _ _ _ _ hu]
  unfold rowsFor
  rw [sections_upsert_raw, sections_upsert_player]

theorem rowsFor_apply_file_untouched (tables : String → String)
    (uc : String → Option String) (t : Nat) (stem : String)
    (S : List (String × List (String × Int))) (j : Json) (db : DB) (n u : String)
    (h : ∀ e ∈ S, tables e.1 = "" ∨ tables e.1 ≠ n) :
    rowsFor (apply_file tables uc t stem S j db) n u = rowsFor db n u := by
  unfold apply_file
  unfold rowsFor
  rw [sections_apply_sections_untouched tables t stem S _ n h,
    sections_upsert_raw, sections_upsert_player]

theorem coreRows_apply_file (tables : String → String) (uc : String → Option String)
    (t : Nat) (stem : String) (S : List (String × List (String × Int))) (j : Json)
    (db : DB)
    (hnodup : (S.map Prod.fst).Nodup)
    (hinj : ∀ a ∈ S.map Prod.fst, ∀ b ∈ S.map Prod.fst, tables a = tables b → a = b)
    (hne : ∀ a ∈ S.map Prod.fst, tables a ≠ "")
    (c : String) (kv : List (String × Int)) (hmem : (c, kv) ∈ S) :
    coreRows (apply_file tables uc t stem S j db) (tables c) stem = kv := by
  unfold apply_file
  exact coreRows_apply_sections tables t stem S _ hnodup hinj hne c kv hmem

/-! ## Lemmas: shape of parse results -/

theorem sectionsOf_fst_sublist (sfs : List (String × Json)) :
    ((sectionsOf sfs).map Prod.fst).Sublist SECTION_KEYS := by
  unfold sectionsOf
  generalize SECTION_KEYS = keys
  induction keys with
  | nil => simp
  | cons k rest ih =>
    simp only [List.filterMap_cons]
    cases hk : (lookupA sfs k).getD (.obj []) with
    | obj raw_vals =>
      dsimp only
      by_cases hc : (cleanedOf raw_vals).isEmpty
      · rw [if_pos hc]
        exact ih.cons k
      · rw [if_neg hc]
        simpa using ih.cons₂ k
    | null => exact ih.cons k
    | bool b => exact ih.cons k
    | int n => exact ih.cons k
    | str s => exact ih.cons k
    | arr xs => exact ih.cons k

theorem SECTION_KEYS_nodup : SECTION_KEYS.Nodup := by decide

theorem sectionsOf_fst_nodup (sfs : List (String × Json)) :
    ((sectionsOf sfs).map Prod.fst).Nodup :=
  (sectionsOf_fst_sublist sfs).nodup SECTION_KEYS_nodup

theorem sectionsOf_fst_mem (sfs : List (String × Json)) (a : String)
    (ha : a ∈ (sectionsOf sfs).map Prod.fst) : a ∈ SECTION_KEYS :=
  (sectionsOf_fst_sublist sfs).mem ha

/-- Inversion of a successful, non-skip parse. -/
theorem parse_stats_ok_some (fc : FileContent)
    (S : List (String × List (String × Int))) (j : Json)
    (hp : parse_stats fc = .ok (some (S, j))) :
    ∃ dfs sfs, fc = .decoded (.obj dfs) ∧ j = .obj dfs ∧
      (lookupA dfs "stats").getD (.obj []) = .obj sfs ∧ S = sectionsOf sfs := by
  cases fc with
  | unreadable => simp [parse_stats] at hp
  | decoded data =>
    cases data with
    | obj dfs =>
      cases hs : (lookupA dfs "stats").getD (.obj []) with
      | obj sfs =>
        refine ⟨dfs, sfs, rfl, ?_, hs, ?_⟩ <;>
        · simp only [parse_stats] at hp
          rw [hs] at hp
          simp at hp
          try exact hp.2.symm
          try exact hp.1.symm
      | null => simp only [parse_stats] at hp; rw [hs] at hp; simp at hp
      | bool b => simp only [parse_stats] at hp; rw [hs] at hp; simp at hp
      | int n => simp only [parse_stats] at hp; rw [hs] at hp; simp at hp
      | str s => simp only [parse_stats] at hp; rw [hs] at hp; simp at hp
      | arr xs => simp only [parse_stats] at hp; rw [hs] at hp; simp at hp
    | null => simp [parse_stats] at hp
    | bool b => simp [parse_stats] at hp
    | int n => simp [parse_stats] at hp
    | str s => simp [parse_stats] at hp
    | arr xs => simp [parse_stats] at hp

/-! ## Lemmas: the whole batch (pure form) -/

theorem apply_batch_frame (tables : String → String) (uc : String → Option String)
    (t : Nat) (files : List (String × FileContent)) (db : DB) (u : String)
    (h : ∀ f ∈ files, ¬ touches f u) :
    playersOf (apply_batch tables uc t files db) u = playersOf db u ∧
    rawOf (apply_batch tables uc t files db) u = rawOf db u ∧
    ∀ n, rowsFor (apply_batch tables uc t files db) n u = rowsFor db n u := by
  induction files generalizing db with
  | nil => exact ⟨rfl, rfl, fun n => rfl⟩
  | cons f rest ih =>
    obtain ⟨stem, fc⟩ := f
    unfold apply_batch
    cases hp : parse_stats fc with
    | error e => exact ⟨rfl, rfl, fun n => rfl⟩
    | ok r =>
      cases r with
      | none => exact ih _ (fun g hg => h g (List.mem_cons_of_mem _ hg))
      | some p =>
        obtain ⟨S, j⟩ := p
        have hstem : stem ≠ u := by
          intro he
          exact h (stem, fc) (List.mem_cons_self _ _) ⟨he, S, j, hp⟩
        have hu : u ≠ stem := fun he => hstem he.symm
        obtain ⟨h1, h2, h3⟩ :=
          ih (apply_file tables uc t stem S j db)
            (fun g hg => h g (List.mem_cons_of_mem _ hg))
        refine ⟨?_, ?_, ?_⟩
        · rw [h1, playersOf_apply_file, if_neg hstem]
        · rw [h2, rawOf_apply_file, if_neg hstem]
        · intro n
          rw [h3, rowsFor_apply_file_other_user _ _ _ _ _ _ _ _ _ hu]

theorem apply_batch_char (tables : String → String) (uc : String → Option String)
    (t : Nat) (files : List (String × FileContent)) (db : DB) (stem : String)
    (fc : FileContent) (S : List (String × List (String × Int))) (j : Json)
    (hmem : (stem, fc) ∈ files)
    (hstems : (files.map Prod.fst).Nodup)
    (hok : ∀ f ∈ files, noRaise f.2)
    (hp : parse_stats fc = .ok (some (S, j)))
    (hinj : ∀ a ∈ SECTION_KEYS, ∀ b ∈ SECTION_KEYS, tables a = tables b → a = b)
    (hne : ∀ a ∈ SECTION_KEYS, tables a ≠ "") :
    playersOf (apply_batch tables uc t files db) stem =
      some (match playersOf db stem with
        | none => ⟨uc stem, t, t⟩
        | some r => ⟨coalesce (uc stem) r.name, r.first_seen, t⟩) ∧
    rawOf (apply_batch tables uc t files db) stem = some ⟨j, t⟩ ∧
    (∀ c kv, (c, kv) ∈ S →
      coreRows (apply_batch tables uc t files db) (tables c) stem = kv) ∧
    (∀ n, (∀ e ∈ S, tables e.1 ≠ n) →
      rowsFor (apply_batch tables uc t files db) n stem = rowsFor db n stem) := by
  induction files generalizing db with
  | nil => exact absurd hmem (List.not_mem_nil _)
  | cons f rest ih =>
    obtain ⟨stem0, fc0⟩ := f
    have hstems' : (rest.map Prod.fst).Nodup := (List.nodup_cons.1 hstems).2
    have hstem0_notin : stem0 ∉ rest.map Prod.fst := (List.nodup_cons.1 hstems).1
    have hok' : ∀ f ∈ rest, noRaise f.2 :=
      fun g hg => hok g (List.mem_cons_of_mem _ hg)
    rcases List.mem_cons.1 hmem with heq | hrest_mem
    · -- the head is our file
      have h1 : stem0 = stem := (congrArg Prod.fst heq).symm
      have h2 : fc0 = fc := (congrArg Prod.snd heq).symm
      subst h1
      subst h2
      unfold apply_batch
      rw [hp]
      have hfra : ∀ g ∈ rest, ¬ touches g stem0 := by
        intro g hg ⟨hg1, _⟩
        exact hstem0_notin (hg1 ▸ List.mem_map_of_mem Prod.fst hg)
      obtain ⟨f1, f2, f3⟩ :=
        apply_batch_frame tables uc t rest (apply_file tables uc t stem0 S j db)
          stem0 hfra
      obtain ⟨dfs, sfs, _, _, _, hS⟩ := parse_stats_ok_some _ S j hp
      have hSnodup : (S.map Prod.fst).Nodup := hS ▸ sectionsOf_fst_nodup sfs
      have hSmem : ∀ a ∈ S.map Prod.fst, a ∈ SECTION_KEYS := by
        intro a ha
        exact sectionsOf_fst_mem sfs a (hS ▸ ha)
      refine ⟨?_, ?_, ?_, ?_⟩
      · rw [f1, playersOf_apply_file, if_pos rfl]
      · rw [f2, rawOf_apply_file, if_pos rfl]
      · intro c kv hckv
        have : coreRows (apply_batch tables uc t rest
            (apply_file tables uc t stem0 S j db)) (tables c) stem0 =
            coreRows (apply_file tables uc t stem0 S j db) (tables c) stem0 := by
          unfold coreRows
          rw [f3]
        rw [this]
        exact coreRows_apply_file tables uc t stem0 S j db hSnodup
          (fun a ha b hb => hinj a (hSmem a ha) b (hSmem b hb))
          (fun a ha => hne a (hSmem a ha)) c kv hckv
      · intro n hn
        rw [f3]
        exact rowsFor_apply_file_untouched tables uc t stem0 S j db n stem0
          (fun e he => Or.inr (hn e he))
    · -- our file sits in the tail
      have hneq : stem0 ≠ stem := by
        intro he
        exact hstem0_notin (he ▸ List.mem_map_of_mem Prod.fst hrest_mem)
      have hstem_ne : stem ≠ stem0 := fun he => hneq he.symm
      unfold apply_batch
      cases hp0 : parse_stats fc0 with
      | error e =>
        obtain ⟨r, hr⟩ := hok (stem0, fc0) (List.mem_cons_self _ _)
        rw [hp0] at hr
        exact absurd hr (by simp)
      | ok r0 =>
        cases r0 with
        | none => exact ih db hrest_mem hstems' hok'
        | some p0 =>
          obtain ⟨S0, j0⟩ := p0
          obtain ⟨g1, g2, g3, g4⟩ :=
            ih (apply_file tables uc t stem0 S0 j0 db) hrest_mem hstems' hok'
          refine ⟨?_, ?_, ?_, ?_⟩
          · rw [g1, playersOf_apply_file, if_neg hneq]
          · exact g2
          · exact g3
          · intro n hn
            rw [g4 n hn, rowsFor_apply_file_other_user _ _ _ _ _ _ _ _ _ hstem_ne]

/-! ## Lemmas: the connection-level batch -/

theorem exec1_cases (ok : Nat → Bool) (f : DB → DB) (c : Conn) (i : Nat) :
    exec1 ok f c i = (none, ⟨c.committed, f c.pending⟩, i + 1) ∨
    exec1 ok f c i = (some .dbError, c, i) := by
  unfold exec1
  by_cases h : ok i
  · left
    rw [if_pos h]
  · right
    rw [if_neg h]

theorem exec1_true (f : DB → DB) (c : Conn) (i : Nat) :
    exec1 (fun _ => true) f c i = (none, ⟨c.committed, f c.pending⟩, i + 1) := rfl

/-- No statement of the section loop ever touches the committed snapshot. -/
theorem process_sections_committed (ok : Nat → Bool) (tables : String → String)
    (t : Nat) (u : String) (S : List (String × List (String × Int))) (c : Conn)
    (i : Nat) :
    (process_sections ok tables t u S c i).2.1.committed = c.committed := by
  induction S generalizing c i with
  | nil => rfl
  | cons e rest ih =>
    obtain ⟨sec, kv⟩ := e
    unfold process_sections
    dsimp only
    by_cases h : tables sec = ""
    · rw [if_pos h]
      exact ih c i
    · rw [if_neg h]
      rcases exec1_cases ok (sectionDeleteDb (tables sec) u) c i with hE | hE
      · rw [hE]
        dsimp only
        by_cases hk : kv.isEmpty
        · rw [if_pos hk]
          exact ih _ _
        · rw [if_neg hk]
          rcases exec1_cases ok (sectionInsertDb (tables sec) u kv t)
              ⟨c.committed, sectionDeleteDb (tables sec) u c.pending⟩ (i + 1) with hE2 | hE2
          · rw [hE2]
            dsimp only
            exact ih _ _
          · rw [hE2]
      · rw [hE]

theorem process_file_committed (ok : Nat → Bool) (tables : String → String)
    (uc : String → Option String) (t : Nat) (stem : String)
    (S : List (String × List (String × Int))) (j : Json) (c : Conn) (i : Nat) :
    (process_file ok tables uc t stem S j c i).2.1.committed = c.committed := by
  unfold process_file
  rcases exec1_cases ok (fun db => upsert_player db stem (uc stem) t) c i with hE | hE
  · rw [hE]
    dsimp only
    rcases exec1_cases ok (fun db => upsert_raw db stem j t)
        ⟨c.committed, upsert_player c.pending stem (uc stem) t⟩ (i + 1) with hE2 | hE2
    · rw [hE2]
      dsimp only
      exact process_sections_committed ok tables t stem S _ _
    · rw [hE2]
  · rw [hE]

/-- The batch loop never commits: the committed snapshot on exit — error or
not — is the one the transaction opened with. -/
theorem sync_batch_committed (ok : Nat → Bool) (tables : String → String)
    (uc : String → Option String) (t : Nat) (files : List (String × FileContent))
    (c : Conn) (i n : Nat) :
    (sync_batch ok tables uc t files c i n).2.1.committed = c.committed := by
  induction files generalizing c i n with
  | nil => rfl
  | cons f rest ih =>
    obtain ⟨stem, fc⟩ := f
    unfold sync_batch
    cases hp : parse_stats fc with
    | error e => rfl
    | ok r =>
      cases r with
      | none => exact ih c i n
      | some p =>
        obtain ⟨S, j⟩ := p
        dsimp only
        have hc := process_file_committed ok tables uc t stem S j c i
        cases hF : process_file ok tables uc t stem S j c i with
        | mk e1 p1 =>
          obtain ⟨c1, i1⟩ := p1
          rw [hF] at hc
          cases e1 with
          | none =>
            dsimp only
            rw [ih c1 i1 (n + 1)]
            exact hc
          | some e =>
            dsimp only
            exact hc

theorem parsedCount_cons_skip (stem : String) (fc : FileContent)
    (rest : List (String × FileContent)) (hp : parse_stats fc = .ok none) :
    parsedCount ((stem, fc) :: rest) = parsedCount rest := by
  unfold parsedCount
  simp [List.filter, hp]

theorem parsedCount_cons_some (stem : String) (fc : FileContent)
    (rest : List (String × FileContent))
    (p : List (String × List (String × Int)) × Json)
    (hp : parse_stats fc = .ok (some p)) :
    parsedCount ((stem, fc) :: rest) = parsedCount rest + 1 := by
  unfold parsedCount
  simp [List.filter, hp]

/-- With every statement succeeding, the section loop is the pure
`apply_sections` on the pending state. -/
theorem process_sections_true (tables : String → String) (t : Nat) (u : String)
    (S : List (String × List (String × Int))) (c : Conn) (i : Nat) :
    ∃ i2, process_sections (fun _ => true) tables t u S c i =
      (none, ⟨c.committed, apply_sections tables t u S c.pending⟩, i2) := by
  induction S generalizing c i with
  | nil => exact ⟨i, rfl⟩
  | cons e rest ih =>
    obtain ⟨sec, kv⟩ := e
    unfold process_sections apply_sections
    dsimp only
    by_cases h : tables sec = ""
    · rw [if_pos h, if_pos h]
      exact ih c i
    · rw [if_neg h, if_neg h, exec1_true]
      dsimp only
      by_cases hk : kv.isEmpty
      · rw [if_pos hk, if_pos hk]
        exact ih _ _
      · rw [if_neg hk, if_neg hk, exec1_true]
        dsimp only
        exact ih _ _

theorem process_file_true (tables : String → String) (uc : String → Option String)
    (t : Nat) (stem : String) (S : List (String × List (String × Int))) (j : Json)
    (c : Conn) (i : Nat) :
    ∃ i2, process_file (fun _ => true) tables uc t stem S j c i =
      (none, ⟨c.committed, apply_file tables uc t stem S j c.pending⟩, i2) := by
  unfold process_file apply_file
  rw [exec1_true]
  dsimp only
  rw [exec1_true]
  dsimp only
  exact process_sections_true tables t stem S _ _

/-- With every statement succeeding and no file raising, the batch succeeds,
its pending state is the pure `apply_batch`, and it counts exactly the
parsed files. -/
theorem sync_batch_true (tables : String → String) (uc : String → Option String)
    (t : Nat) (files : List (String × FileContent)) (c : Conn) (i n : Nat)
    (hok : ∀ f ∈ files, noRaise f.2) :
    ∃ i2, sync_batch (fun _ => true) tables uc t files c i n =
      (none, ⟨c.committed, apply_batch tables uc t files c.pending⟩, i2,
        n + parsedCount files) := by
  induction files generalizing c i n with
  | nil =>
    refine ⟨i, ?_⟩
    unfold sync_batch apply_batch parsedCount
    simp
  | cons f rest ih =>
    obtain ⟨stem, fc⟩ := f
    have hok' : ∀ g ∈ rest, noRaise g.2 := fun g hg => hok g (List.mem_cons_of_mem _ hg)
    unfold sync_batch apply_batch
    cases hp : parse_stats fc with
    | error e =>
      obtain ⟨r, hr⟩ := hok (stem, fc) (List.mem_cons_self _ _)
      rw [hp] at hr
      exact absurd hr (by simp)
    | ok r =>
      cases r with
      | none =>
        rw [parsedCount_cons_skip stem fc rest hp]
        exact ih c i n hok'
      | some p =>
        obtain ⟨S, j⟩ := p
        dsimp only
        obtain ⟨i1, hF⟩ := process_file_true tables uc t stem S j c i
        rw [hF]
        dsimp only
        obtain ⟨i2, hB⟩ := ih ⟨c.committed, apply_file tables uc t stem S j c.pending⟩
          i1 (n + 1) hok'
        rw [hB]
        refine ⟨i2, ?_⟩
        rw [parsedCount_cons_some stem fc rest (S, j) hp]
        have : n + 1 + parsedCount rest = n + (parsedCount rest + 1) := by omega
        rw [this]

/-- The data phase of a run with no raising file and no failing statement is
the pure batch. -/
theorem sync_run_eq_apply_batch (tables : String → String) (uc : String → Option String)
    (t : Nat) (files : List (String × FileContent)) (db : DB)
    (hok : ∀ f ∈ files, noRaise f.2) :
    sync_run tables uc t files db = apply_batch tables uc t files db := by
  unfold sync_run sync_tx
  obtain ⟨i2, hB⟩ := sync_batch_true tables uc t files ⟨db, db⟩ 0 0 hok
  rw [hB]
  rfl

/-! ## Lemmas: parser characterization -/

theorem lookupA_sectionsOf (sfs : List (String × Json)) (c : String) :
    lookupA (sectionsOf sfs) c =
      if c ∈ SECTION_KEYS ∧ retainedOf sfs c ≠ [] then some (retainedOf sfs c)
      else none := by
  unfold sectionsOf
  generalize SECTION_KEYS = keys
  induction keys with
  | nil => simp [lookupA]
  | cons k rest ih =>
    rw [List.filterMap_cons]
    cases hk : (lookupA sfs k).getD (.obj []) with
    | obj raw_vals =>
      dsimp only
      by_cases hc : (cleanedOf raw_vals).isEmpty
      · rw [if_pos hc]
        rw [ih]
        by_cases hck : c = k
        · subst hck
          have hr : retainedOf sfs c = [] := by
            unfold retainedOf
            rw [hk]
            exact List.isEmpty_iff.1 hc
          simp [hr]
        · exact (if_congr (by simp [List.mem_cons, hck]) rfl rfl)
      · rw [if_neg hc]
        by_cases hck : k = c
        · subst hck
          have hr : retainedOf sfs k = cleanedOf raw_vals := by
            unfold retainedOf
            rw [hk]
          simp [lookupA, hr, List.isEmpty_iff] at hc ⊢
          exact hc
        · have hck' : ¬ c = k := fun he => hck he.symm
          simp only [lookupA, if_neg hck]
          rw [ih]
          exact (if_congr (by simp [List.mem_cons, hck']) rfl rfl)
    | null =>
      dsimp only
      rw [ih]
      by_cases hck : c = k
      · subst hck
        have hr : retainedOf sfs c = [] := by
          unfold retainedOf
          rw [hk]
        simp [hr]
      · exact (if_congr (by simp [List.mem_cons, hck]) rfl rfl)
    | bool b =>
      dsimp only
      rw [ih]
      by_cases hck : c = k
      · subst hck
        have hr : retainedOf sfs c = [] := by
          unfold retainedOf
          rw [hk]
        simp [hr]
      · exact (if_congr (by simp [List.mem_cons, hck]) rfl rfl)
    | int n =>
      dsimp only
      rw [ih]
      by_cases hck : c = k
      · subst hck
        have hr : retainedOf sfs c = [] := by
          unfold retainedOf
          rw [hk]
        simp [hr]
      · exact (if_congr (by simp [List.mem_cons, hck]) rfl rfl)
    | str s =>
      dsimp only
      rw [ih]
      by_cases hck : c = k
      · subst hck
        have hr : retainedOf sfs c = [] := by
          unfold retainedOf
          rw [hk]
        simp [hr]
      · exact (if_congr (by simp [List.mem_cons, hck]) rfl rfl)
    | arr xs =>
      dsimp only
      rw [ih]
      by_cases hck : c = k
      · subst hck
        have hr : retainedOf sfs c = [] := by
          unfold retainedOf
          rw [hk]
        simp [hr]
      · exact (if_congr (by simp [List.mem_cons, hck]) rfl rfl)

/-- With the `stats` member decoded to the object `sfs`, the spec-side
retained set coincides with the parser's per-category cleaning. -/
theorem specRetained_eq_retainedOf (dfs sfs : List (String × Json)) (c : String)
    (hs : (lookupA dfs "stats").getD (.obj []) = .obj sfs) :
    specRetained (.obj dfs) c = retainedOf sfs c := by
  unfold specRetained retainedOf
  dsimp only
  rw [hs]
  dsimp only
  cases hc : lookupA sfs c with
  | none => rfl
  | some v => cases v <;> rfl

/-! ## Lemmas: usercache characterization -/

theorem uc_fold_cons (e : Json) (rest : List Json) (m : List (Json × Json)) :
    uc_fold (e :: rest) m =
      match uc_entry_step m e with
      | .error err => .error err
      | .ok m1 => uc_fold rest m1 := rfl

theorem lastComplete_cons (e : Json) (rest : List Json) (u : Json) :
    lastComplete (e :: rest) u =
      match lastComplete rest u with
      | some v => some v
      | none =>
        match completeRecord e with
        | some (k, v) => if k = u then some v else none
        | none => none := rfl

/-- A dict-shaped entry never raises: it contributes its complete record, if
any. -/
theorem uc_entry_step_obj (m : List (Json × Json)) (fields : List (String × Json)) :
    uc_entry_step m (.obj fields) =
      .ok (match completeRecord (.obj fields) with
        | some (k, v) => setA m k v
        | none => m) := by
  unfold uc_entry_step completeRecord
  dsimp only
  cases lookupA fields "uuid" <;> cases lookupA fields "name" <;> rfl

theorem uc_fold_char (es : List Json) (h : ∀ e ∈ es, e.isObj = true)
    (m : List (Json × Json)) :
    ∃ m2, uc_fold es m = .ok m2 ∧
      ∀ u, lookupA m2 u =
        match lastComplete es u with
        | some v => some v
        | none => lookupA m u := by
  induction es generalizing m with
  | nil => exact ⟨m, rfl, fun u => rfl⟩
  | cons e rest ih =>
    have hrest : ∀ e ∈ rest, e.isObj = true :=
      fun g hg => h g (List.mem_cons_of_mem _ hg)
    cases e with
    | obj fields =>
      rw [uc_fold_cons, uc_entry_step_obj]
      dsimp only
      cases hcr : completeRecord (.obj fields) with
      | none =>
        obtain ⟨m2, hm2, hl⟩ := ih hrest m
        refine ⟨m2, hm2, fun u => ?_⟩
        rw [hl u, lastComplete_cons, hcr]
        cases lastComplete rest u <;> rfl
      | some p =>
        obtain ⟨k, v⟩ := p
        obtain ⟨m2, hm2, hl⟩ := ih hrest (setA m k v)
        refine ⟨m2, hm2, fun u => ?_⟩
        rw [hl u, lastComplete_cons, hcr]
        cases lastComplete rest u with
        | some w => rfl
        | none =>
          dsimp only
          rw [lookupA_setA]
          by_cases hk : k = u <;> simp [hk]
    | null => exact absurd (h _ (List.mem_cons_self _ _)) (by simp [Json.isObj])
    | bool b => exact absurd (h _ (List.mem_cons_self _ _)) (by simp [Json.isObj])
    | int n => exact absurd (h _ (List.mem_cons_self _ _)) (by simp [Json.isObj])
    | str s => exact absurd (h _ (List.mem_cons_self _ _)) (by simp [Json.isObj])
    | arr xs => exact absurd (h _ (List.mem_cons_self _ _)) (by simp [Json.isObj])

/-! ## Lemmas: a raising file aborts the batch -/

theorem sync_batch_raise (tables : String → String) (uc : String → Option String)
    (t : Nat) (pre post : List (String × FileContent)) (stem : String)
    (fc : FileContent) (e : PyErr)
    (hpre : ∀ f ∈ pre, noRaise f.2) (hp : parse_stats fc = .error e)
    (c : Conn) (i n : Nat) :
    (sync_batch (fun _ => true) tables uc t (pre ++ (stem, fc) :: post) c i n).1 =
      some (.pyError e) := by
  induction pre generalizing c i n with
  | nil =>
    rw [List.nil_append]
    unfold sync_batch
    rw [hp]
  | cons f rest ih =>
    obtain ⟨stem0, fc0⟩ := f
    have hrest : ∀ g ∈ rest, noRaise g.2 :=
      fun g hg => hpre g (List.mem_cons_of_mem _ hg)
    rw [List.cons_append]
    unfold sync_batch
    cases hp0 : parse_stats fc0 with
    | error e0 =>
      obtain ⟨r, hr⟩ := hpre (stem0, fc0) (List.mem_cons_self _ _)
      rw [hp0] at hr
      exact absurd hr (by simp)
    | ok r0 =>
      cases r0 with
      | none => exact ih hrest c i n
      | some p0 =>
        obtain ⟨S0, j0⟩ := p0
        dsimp only
        obtain ⟨i1, hF⟩ := process_file_true tables uc t stem0 S0 j0 c i
        rw [hF]
        dsimp only
        exact ih hrest _ _ _

/-! ## Claim theorems -/

/-- C2: all data writes of a run live in one transaction.  If any statement
of the per-file batch fails (or a file raises), the run performs no commit
and the visible state is the committed snapshot the transaction opened with
— nothing written during the batch survives; the commit publishing the
batch's pending writes happens exactly when the whole batch finished
without a fatal error. -/
theorem claim_C2 (ok : Nat → Bool) (tables : String → String)
    (uc : String → Option String) (t : Nat) (files : List (String × FileContent))
    (c : Conn) :
    (∀ e, (sync_batch ok tables uc t files c 0 0).1 = some e →
      sync_tx ok tables uc t files c = c.committed) ∧
    ((sync_batch ok tables uc t files c 0 0).1 = none →
      sync_tx ok tables uc t files c =
        (sync_batch ok tables uc t files c 0 0).2.1.pending) := by
  have hcomm := sync_batch_committed ok tables uc t files c 0 0
  unfold sync_tx
  cases hB : sync_batch ok tables uc t files c 0 0 with
  | mk e1 p1 =>
    obtain ⟨c1, p2⟩ := p1
    rw [hB] at hcomm
    cases e1 with
    | none =>
      refine ⟨fun e he => ?_, fun _ => rfl⟩
      simp at he
    | some e =>
      refine ⟨fun e2 _ => hcomm, fun he => ?_⟩
      simp at he

/-- C2 witness: a run whose very first statement fails commits nothing: the
visible state stays the initial one. -/
theorem claim_C2_witness :
    (sync_batch (fun _ => false) defaultTables (fun _ => none) 0 exFiles
      ⟨emptyDB, emptyDB⟩ 0 0).1 = some .dbError ∧
    sync_tx (fun _ => false) defaultTables (fun _ => none) 0 exFiles
      ⟨emptyDB, emptyDB⟩ = emptyDB :=
  ⟨by decide,
    (claim_C2 (fun _ => false) defaultTables (fun _ => none) 0 exFiles
      ⟨emptyDB, emptyDB⟩).1 .dbError (by decide)⟩

/-- C3 (code bug): a failure while establishing the TCP transport —
`paramiko.Transport((host, port))` raising, the canonical connection
failure — propagates with the scoped temporary directory still on disk,
because that constructor sits before the `try` whose handler removes
`temp_root`, and `sync`'s own handler holds `cleanup_fn = None` at that
point.  The run does abort with zero database writes.  Authentication and
listing failures, by contrast, do remove the directory, matching the
claim. -/
theorem claim_C3_bug :
    maybe_fetch_world_via_sftp exSftpCfg exRemoteDown = (.error .connectError, true) ∧
    sync_with_fetch exSftpCfg exRemoteDown defaultTables (fun _ => none) 0 exFiles
      emptyDB = (.error .connectError, true) ∧
    maybe_fetch_world_via_sftp exSftpCfg exRemoteAuthFail = (.error .authError, false) ∧
    maybe_fetch_world_via_sftp exSftpCfg exRemoteListFail = (.error .listError, false) := by
  refine ⟨by decide, ?_, by decide, by decide⟩
  rfl

/-- C5: the player upsert inserts an absent row with the supplied (possibly
null) name and both timestamps set to now; for a present row it updates the
name only when the new one is non-null (never overwriting a name with
null), always refreshes last-seen, and preserves first-seen. -/
theorem claim_C5 (db : DB) (uuid : String) (name : Option String) (t : Nat) :
    (playersOf db uuid = none →
      playersOf (upsert_player db uuid name t) uuid = some ⟨name, t, t⟩) ∧
    (∀ r, playersOf db uuid = some r →
      playersOf (upsert_player db uuid name t) uuid =
        some ⟨coalesce name r.name, r.first_seen, t⟩ ∧
      (name = none → coalesce name r.name = r.name) ∧
      (∀ n, name = some n → coalesce name r.name = some n)) := by
  have h := playersOf_upsert_player db uuid name t uuid
  rw [if_pos rfl] at h
  constructor
  · intro habs
    rw [h]
    unfold playersOf at habs
    rw [habs]
  · intro r hr
    refine ⟨?_, fun hn => by rw [hn]; rfl, fun n hn => by rw [hn]; rfl⟩
    rw [h]
    unfold playersOf at hr
    rw [hr]

/-- C5 witness: a player with recorded name Alice re-synced with a null
name keeps Alice while last-seen advances from 2 to 5; first-seen stays
1. -/
theorem claim_C5_witness :
    playersOf exDB5 "p" = some ⟨some "Alice", 1, 2⟩ ∧
    playersOf (upsert_player exDB5 "p" none 5) "p" = some ⟨some "Alice", 1, 5⟩ :=
  ⟨by decide, ((claim_C5 exDB5 "p" none 5).2 ⟨some "Alice", 1, 2⟩ (by decide)).1⟩

/-- C8 counterexample: a file whose content is the valid JSON document `42`
decodes, then raises an uncaught `TypeError` when the loader iterates it —
the loader does not return an empty mapping, contradicting the claim that
no input ever raises. -/
theorem claim_C8_counterexample :
    load_usercache (.decoded (.int 42)) = .error .typeError := by decide

/-- C8 amended: a missing, unreadable, or JSON-undecodable usercache file
yields the empty mapping without raising, and for a document that decodes
to an array of objects the loader returns, without raising, the mapping
that associates to each identifier the name of its last complete record —
records missing either field are skipped silently.  (A document decoding to
anything else can raise an uncaught `TypeError`.) -/
theorem claim_C8_amended :
    load_usercache .missing = .ok [] ∧
    load_usercache .unreadable = .ok [] ∧
    load_usercache .invalidJson = .ok [] ∧
    ∀ es, (∀ e ∈ es, e.isObj = true) →
      ∃ m, load_usercache (.decoded (.arr es)) = .ok m ∧
        ∀ u, lookupA m u = lastComplete es u := by
  refine ⟨rfl, rfl, rfl, fun es h => ?_⟩
  obtain ⟨m2, hm2, hl⟩ := uc_fold_char es h []
  refine ⟨m2, hm2, fun u => ?_⟩
  rw [hl u]
  cases lastComplete es u <;> rfl

/-- C8 amended witness: a concrete array with a complete record, a record
missing its name, and a later overriding record loads without error into
the last-complete-record mapping. -/
theorem claim_C8_witness :
    ∃ m, load_usercache (.decoded (.arr exUsercacheEntries)) = .ok m ∧
      ∀ u, lookupA m u = lastComplete exUsercacheEntries u :=
  claim_C8_amended.2.2.2 exUsercacheEntries (by decide)

/-- C9: the parser's skip result covers exactly decode/IO failures; a file
decoding to a non-object raises `AttributeError` (from
`data.get("stats", {})`), and one such file in a batch whose earlier files
do not raise aborts the whole run. -/
theorem claim_C9 (j : Json) (hj : j.isObj = false) :
    parse_stats (.decoded j) = .error .attributeError ∧
    parse_stats .unreadable = .ok none ∧
    ∀ (tables : String → String) (uc : String → Option String) (t : Nat)
      (pre post : List (String × FileContent)) (stem : String) (c : Conn) (i n : Nat),
      (∀ f ∈ pre, noRaise f.2) →
      (sync_batch (fun _ => true) tables uc t (pre ++ (stem, .decoded j) :: post)
        c i n).1 = some (.pyError .attributeError) := by
  have hperr : parse_stats (.decoded j) = .error .attributeError := by
    cases j with
    | obj fields => simp [Json.isObj] at hj
    | null => rfl
    | bool b => rfl
    | int n => rfl
    | str s => rfl
    | arr xs => rfl
  refine ⟨hperr, rfl, fun tables uc t pre post stem c i n hpre => ?_⟩
  exact sync_batch_raise tables uc t pre post stem (.decoded j) .attributeError
    hpre hperr c i n

/-- C9 witness: a bare-array stats file aborts a batch whose first file is
fine. -/
theorem claim_C9_witness :
    parse_stats (.decoded (.arr [])) = .error .attributeError ∧
    (sync_batch (fun _ => true) defaultTables (fun _ => none) 0
      ([("q", .decoded (.obj []))] ++ ("bad", .decoded (.arr [])) :: [])
      ⟨emptyDB, emptyDB⟩ 0 0).1 = some (.pyError .attributeError) :=
  ⟨(claim_C9 (.arr []) (by decide)).1,
    (claim_C9 (.arr []) (by decide)).2.2 defaultTables (fun _ => none) 0
      [("q", .decoded (.obj []))] [] "bad" ⟨emptyDB, emptyDB⟩ 0 0
      (by
        intro f hf
        have hf1 : f = ("q", .decoded (.obj [])) := by
          simpa using hf
        rw [hf1]
        exact ⟨some ([], .obj []), by decide⟩)⟩

/-- C10: whenever both a world name and a remote root path are configured,
the remote world path actually used is the one composed from them — the
explicitly configured remote world path is overwritten and has no effect on
the result. -/
theorem claim_C10 (cfg : SftpCfg) (x y : String)
    (h1 : cfg.world_name ≠ "") (h2 : cfg.remote_root_path ≠ "") :
    remote_world_of { cfg with remote_world_path := x } =
      rstripSlash cfg.remote_root_path ++ "/" ++ stripSlash cfg.world_name ∧
    remote_world_of { cfg with remote_world_path := x } =
      remote_world_of { cfg with remote_world_path := y } := by
  unfold remote_world_of
  dsimp only
  rw [if_pos ⟨h1, h2⟩, if_pos ⟨h1, h2⟩]
  exact ⟨rfl, rfl⟩

/-- C10 witness: with root `/srv/mc/` and world name `world`, the resolved
path is `/srv/mc/world` no matter which explicit path is configured. -/
theorem claim_C10_witness :
    remote_world_of { exSftpCfg2 with remote_world_path := "/explicit/world" } =
      rstripSlash exSftpCfg2.remote_root_path ++ "/" ++ stripSlash exSftpCfg2.world_name ∧
    remote_world_of { exSftpCfg2 with remote_world_path := "/explicit/world" } =
      remote_world_of { exSftpCfg2 with remote_world_path := "/other" } :=
  claim_C10 exSftpCfg2 "/explicit/world" "/other" (by decide) (by decide)

/-- C1: after a successful run with injective, nonempty section-table
names, every player file of the batch has full-replacement semantics per
category: a category present in its parse result has its table hold exactly
the parsed `(key, value)` rows for that player — every pre-existing row for
the player there is gone — while every allow-listed category absent from
the parse result keeps the player's prior rows in its table untouched. -/
theorem claim_C1 (tables : String → String) (uc : String → Option String) (t : Nat)
    (files : List (String × FileContent)) (db : DB) (stem : String) (fc : FileContent)
    (S : List (String × List (String × Int))) (j : Json)
    (hmem : (stem, fc) ∈ files)
    (hstems : (files.map Prod.fst).Nodup)
    (hok : ∀ f ∈ files, noRaise f.2)
    (hp : parse_stats fc = .ok (some (S, j)))
    (hinj : ∀ a ∈ SECTION_KEYS, ∀ b ∈ SECTION_KEYS, tables a = tables b → a = b)
    (hne : ∀ a ∈ SECTION_KEYS, tables a ≠ "") :
    (∀ c kv, (c, kv) ∈ S →
      coreRows (sync_run tables uc t files db) (tables c) stem = kv) ∧
    (∀ c, c ∈ SECTION_KEYS → (∀ kv, (c, kv) ∉ S) →
      rowsFor (sync_run tables uc t files db) (tables c) stem =
        rowsFor db (tables c) stem) := by
  rw [sync_run_eq_apply_batch tables uc t files db hok]
  obtain ⟨_, _, h3, h4⟩ :=
    apply_batch_char tables uc t files db stem fc S j hmem hstems hok hp hinj hne
  refine ⟨h3, fun c hc habs => ?_⟩
  apply h4
  intro e he
  obtain ⟨c2, kv2⟩ := e
  obtain ⟨dfs, sfs, _, _, _, hS⟩ := parse_stats_ok_some _ S j hp
  intro hte
  have he1 : c2 ∈ SECTION_KEYS :=
    sectionsOf_fst_mem sfs c2 (hS ▸ List.mem_map_of_mem Prod.fst he)
  have hcc : c2 = c := hinj c2 he1 c hc hte
  exact habs kv2 (hcc ▸ he)

/-- C1 witness: Scenario A run on an empty database: the mined table holds
exactly `(minecraft:stone, 42)` for the player, and the used table — absent
from the parse result — is untouched. -/
theorem claim_C1_witness :
    coreRows (sync_run defaultTables (fun _ => none) 0 exFiles emptyDB)
      "player_stats_mined" "11111111-1111-1111-1111-111111111111" =
      [("minecraft:stone", 42)] ∧
    rowsFor (sync_run defaultTables (fun _ => none) 0 exFiles emptyDB)
      "player_stats_used" "11111111-1111-1111-1111-111111111111" =
      rowsFor emptyDB "player_stats_used" "11111111-1111-1111-1111-111111111111" := by
  have h := claim_C1 defaultTables (fun _ => none) 0 exFiles emptyDB
    "11111111-1111-1111-1111-111111111111" (.decoded scenarioA_doc)
    [("minecraft:mined", [("minecraft:stone", 42)])] scenarioA_doc
    (by decide) (by decide)
    (by
      intro f hf
      have hf1 : f = ("11111111-1111-1111-1111-111111111111", .decoded scenarioA_doc) := by
        simpa [exFiles] using hf
      rw [hf1]
      exact ⟨some ([("minecraft:mined", [("minecraft:stone", 42)])], scenarioA_doc),
        by decide⟩)
    (by decide) (by decide) (by decide)
  refine ⟨h.1 "minecraft:mined" [("minecraft:stone", 42)] (by decide), ?_⟩
  refine h.2 "minecraft:used" (by decide) ?_
  intro kv hkv
  have h1 := List.mem_singleton.1 hkv
  have h2 : "minecraft:used" = "minecraft:mined" := congrArg Prod.fst h1
  exact absurd h2 (by decide)

/-- C4: for a decoded document that is an object whose `stats` member (if
present) is an object, the parse returns a result whose raw component is
the unmodified decoded input, and whose section list associates a category
to a key/value list exactly when the category is allow-listed and the
spec-side retained set — the entries whose value coerces to an integer,
non-coercible entries discarded — is nonempty, in which case it equals that
retained set; additionally, the Scenario A input retains exactly
`(minecraft:stone, 42)` in the mined category, dropping `minecraft:dirt`. -/
theorem claim_C4 (dfs : List (String × Json))
    (h : ((lookupA dfs "stats").getD (.obj [])).isObj = true) :
    (∃ secs, parse_stats (.decoded (.obj dfs)) = .ok (some (secs, .obj dfs)) ∧
      ∀ c kv, lookupA secs c = some kv ↔
        (c ∈ SECTION_KEYS ∧ kv = specRetained (.obj dfs) c ∧ kv ≠ [])) ∧
    parse_stats (.decoded scenarioA_doc) =
      .ok (some ([("minecraft:mined", [("minecraft:stone", 42)])], scenarioA_doc)) := by
  refine ⟨?_, by decide⟩
  cases hs : (lookupA dfs "stats").getD (.obj []) with
  | obj sfs =>
    refine ⟨sectionsOf sfs, ?_, ?_⟩
    · unfold parse_stats
      dsimp only
      rw [hs]
    · intro c kv
      rw [lookupA_sectionsOf, specRetained_eq_retainedOf dfs sfs c hs]
      by_cases hP : c ∈ SECTION_KEYS ∧ retainedOf sfs c ≠ []
      · rw [if_pos hP]
        constructor
        · intro h1
          have hkv := (Option.some.inj h1).symm
          exact ⟨hP.1, hkv, hkv ▸ hP.2⟩
        · intro ⟨_, hkv, _⟩
          rw [hkv]
      · rw [if_neg hP]
        constructor
        · intro h1
          exact absurd h1 (by simp)
        · intro ⟨h1, h2, h3⟩
          exact absurd ⟨h1, h2 ▸ h3⟩ hP
  | null => rw [hs] at h; simp [Json.isObj] at h
  | bool b => rw [hs] at h; simp [Json.isObj] at h
  | int n => rw [hs] at h; simp [Json.isObj] at h
  | str s => rw [hs] at h; simp [Json.isObj] at h
  | arr xs => rw [hs] at h; simp [Json.isObj] at h

/-- C4 witness: the characterization instantiated on the Scenario A
document. -/
theorem claim_C4_witness :
    (∃ secs, parse_stats (.decoded (.obj scenarioA_fields)) =
        .ok (some (secs, .obj scenarioA_fields)) ∧
      ∀ c kv, lookupA secs c = some kv ↔
        (c ∈ SECTION_KEYS ∧ kv = specRetained (.obj scenarioA_fields) c ∧ kv ≠ [])) ∧
    parse_stats (.decoded scenarioA_doc) =
      .ok (some ([("minecraft:mined", [("minecraft:stone", 42)])], scenarioA_doc)) :=
  claim_C4 scenarioA_fields (by decide)

/-- C6 counterexample: rerunning the pipeline on unchanged input does not
leave the tables byte-for-byte identical.  At a later clock the player's
`last_seen` column changes, and even at the same clock the delete-then-
reinsert of section rows assigns fresh auto-increment ids, so the mined
table differs. -/
theorem claim_C6_counterexample :
    (sync_run defaultTables (fun _ => none) 1 exFiles
        (sync_run defaultTables (fun _ => none) 0 exFiles emptyDB)).players ≠
      (sync_run defaultTables (fun _ => none) 0 exFiles emptyDB).players ∧
    (sync_run defaultTables (fun _ => none) 0 exFiles
        (sync_run defaultTables (fun _ => none) 0 exFiles emptyDB)).sections
          "player_stats_mined" ≠
      (sync_run defaultTables (fun _ => none) 0 exFiles emptyDB).sections
        "player_stats_mined" := by
  exact ⟨by decide, by decide⟩

/-- C6 amended: rerunning the pipeline on unchanged input leaves every data
column unchanged — the stored name and first-seen of every player, the raw
document of every player, and the `(stat_key, stat_value)` set of every
player in every section table are identical after the second run; only the
volatile columns (`last_seen`, `updated_at`) and the synthetic
auto-increment ids may differ, as the counterexample shows. -/
theorem claim_C6_amended (tables : String → String) (uc : String → Option String)
    (t1 t2 : Nat) (files : List (String × FileContent)) (db : DB)
    (hstems : (files.map Prod.fst).Nodup)
    (hok : ∀ f ∈ files, noRaise f.2)
    (hinj : ∀ a ∈ SECTION_KEYS, ∀ b ∈ SECTION_KEYS, tables a = tables b → a = b)
    (hne : ∀ a ∈ SECTION_KEYS, tables a ≠ "") :
    (∀ u, (playersOf (sync_run tables uc t2 files
          (sync_run tables uc t1 files db)) u).map (fun r => (r.name, r.first_seen)) =
      (playersOf (sync_run tables uc t1 files db) u).map
        (fun r => (r.name, r.first_seen))) ∧
    (∀ u, (rawOf (sync_run tables uc t2 files
          (sync_run tables uc t1 files db)) u).map (fun r => r.stats_json) =
      (rawOf (sync_run tables uc t1 files db) u).map (fun r => r.stats_json)) ∧
    (∀ tbl u, coreRows (sync_run tables uc t2 files
          (sync_run tables uc t1 files db)) tbl u =
      coreRows (sync_run tables uc t1 files db) tbl u) := by
  rw [sync_run_eq_apply_batch tables uc t1 files db hok]
  rw [sync_run_eq_apply_batch tables uc t2 files _ hok]
  have main : ∀ u,
      (playersOf (apply_batch tables uc t2 files
          (apply_batch tables uc t1 files db)) u).map (fun r => (r.name, r.first_seen)) =
        (playersOf (apply_batch tables uc t1 files db) u).map
          (fun r => (r.name, r.first_seen)) ∧
      (rawOf (apply_batch tables uc t2 files
          (apply_batch tables uc t1 files db)) u).map (fun r => r.stats_json) =
        (rawOf (apply_batch tables uc t1 files db) u).map (fun r => r.stats_json) ∧
      ∀ tbl, coreRows (apply_batch tables uc t2 files
          (apply_batch tables uc t1 files db)) tbl u =
        coreRows (apply_batch tables uc t1 files db) tbl u := by
    intro u
    by_cases htouch : ∃ fc S j, (u, fc) ∈ files ∧ parse_stats fc = .ok (some (S, j))
    · obtain ⟨fc, S, j, hmem, hp⟩ := htouch
      have char1 := apply_batch_char tables uc t1 files db u fc S j
        hmem hstems hok hp hinj hne
      have char2 := apply_batch_char tables uc t2 files
        (apply_batch tables uc t1 files db) u fc S j hmem hstems hok hp hinj hne
      obtain ⟨c1p, c1r, c1s, c1u⟩ := char1
      obtain ⟨c2p, c2r, c2s, c2u⟩ := char2
      rw [c1p] at c2p
      refine ⟨?_, ?_, ?_⟩
      · rw [c2p, c1p]
        cases hdb : playersOf db u with
        | none =>
          dsimp only
          cases uc u <;> rfl
        | some r =>
          dsimp only
          cases uc u <;> rfl
      · rw [c2r, c1r]
        rfl
      · intro tbl
        by_cases hsec : ∃ c kv, (c, kv) ∈ S ∧ tables c = tbl
        · obtain ⟨c, kv, hckv, hct⟩ := hsec
          rw [← hct, c2s c kv hckv, c1s c kv hckv]
        · have hn : ∀ e ∈ S, tables e.1 ≠ tbl := by
            intro e he hte
            exact hsec ⟨e.1, e.2, by rw [Prod.mk.eta]; exact he, hte⟩
          have := c2u tbl hn
          unfold coreRows
          rw [this]
    · have hntouch : ∀ f ∈ files, ¬ touches f u := by
        intro f hf ⟨hf1, S, j, hp⟩
        refine htouch ⟨f.2, S, j, ?_, hp⟩
        rw [← hf1, Prod.mk.eta]
        exact hf
      obtain ⟨f1p, f1r, f1s⟩ := apply_batch_frame tables uc t2 files
        (apply_batch tables uc t1 files db) u hntouch
      refine ⟨by rw [f1p], by rw [f1r], fun tbl => ?_⟩
      unfold coreRows
      rw [f1s tbl]
  exact ⟨fun u => (main u).1, fun u => (main u).2.1, fun tbl u => (main u).2.2 tbl⟩

/-- C6 amended witness: the Scenario A pipeline run twice (clocks 0 then 1)
keeps the player's name/first-seen pair, the raw document, and the mined
rows identical. -/
theorem claim_C6_witness :
    (playersOf (sync_run defaultTables (fun _ => none) 1 exFiles
        (sync_run defaultTables (fun _ => none) 0 exFiles emptyDB))
          "11111111-1111-1111-1111-111111111111").map (fun r => (r.name, r.first_seen)) =
      (playersOf (sync_run defaultTables (fun _ => none) 0 exFiles emptyDB)
        "11111111-1111-1111-1111-111111111111").map (fun r => (r.name, r.first_seen)) ∧
    coreRows (sync_run defaultTables (fun _ => none) 1 exFiles
        (sync_run defaultTables (fun _ => none) 0 exFiles emptyDB))
      "player_stats_mined" "11111111-1111-1111-1111-111111111111" =
      coreRows (sync_run defaultTables (fun _ => none) 0 exFiles emptyDB)
        "player_stats_mined" "11111111-1111-1111-1111-111111111111" := by
  have h := claim_C6_amended defaultTables (fun _ => none) 0 1 exFiles emptyDB
    (by decide)
    (by
      intro f hf
      have hf1 : f = ("11111111-1111-1111-1111-111111111111", .decoded scenarioA_doc) := by
        simpa [exFiles] using hf
      rw [hf1]
      exact ⟨some ([("minecraft:mined", [("minecraft:stone", 42)])], scenarioA_doc),
        by decide⟩)
    (by decide) (by decide)
  exact ⟨h.1 "11111111-1111-1111-1111-111111111111",
    h.2.2 "player_stats_mined" "11111111-1111-1111-1111-111111111111"⟩

/-- C7: a batch holding one malformed file (its parse yields the skip
result) among files that all parse to a result and carry other stems
completes without a fatal error, counts exactly the other files as
processed, and creates no player, raw, or section row for the malformed
stem. -/
theorem claim_C7 (tables : String → String) (uc : String → Option String) (t : Nat)
    (db : DB) (pre post : List (String × FileContent)) (stem : String)
    (fc : FileContent)
    (hbad : parse_stats fc = .ok none)
    (hgood : ∀ f ∈ pre ++ post, ∃ p, parse_stats f.2 = .ok (some p))
    (hstem : ∀ f ∈ pre ++ post, f.1 ≠ stem) :
    (sync_batch (fun _ => true) tables uc t (pre ++ (stem, fc) :: post)
      ⟨db, db⟩ 0 0).1 = none ∧
    (sync_batch (fun _ => true) tables uc t (pre ++ (stem, fc) :: post)
      ⟨db, db⟩ 0 0).2.2.2 = (pre ++ post).length ∧
    playersOf (sync_run tables uc t (pre ++ (stem, fc) :: post) db) stem =
      playersOf db stem ∧
    rawOf (sync_run tables uc t (pre ++ (stem, fc) :: post) db) stem =
      rawOf db stem ∧
    ∀ n, rowsFor (sync_run tables uc t (pre ++ (stem, fc) :: post) db) n stem =
      rowsFor db n stem := by
  have hok : ∀ f ∈ pre ++ (stem, fc) :: post, noRaise f.2 := by
    intro f hf
    rcases List.mem_append.1 hf with hf1 | hf1
    · obtain ⟨p, hp⟩ := hgood f (List.mem_append.2 (Or.inl hf1))
      exact ⟨some p, hp⟩
    · rcases List.mem_cons.1 hf1 with hf2 | hf2
      · rw [hf2]
        exact ⟨none, hbad⟩
      · obtain ⟨p, hp⟩ := hgood f (List.mem_append.2 (Or.inr hf2))
        exact ⟨some p, hp⟩
  obtain ⟨i2, hB⟩ := sync_batch_true tables uc t (pre ++ (stem, fc) :: post)
    ⟨db, db⟩ 0 0 hok
  have hcount : parsedCount (pre ++ (stem, fc) :: post) = (pre ++ post).length := by
    unfold parsedCount
    rw [List.filter_append]
    have hpre : pre.filter (fun f =>
        match parse_stats f.2 with
        | .ok (some _) => true
        | _ => false) = pre := by
      apply filter_all_true
      intro f hf
      obtain ⟨p, hp⟩ := hgood f (List.mem_append.2 (Or.inl hf))
      rw [hp]
    have hcons : ((stem, fc) :: post).filter (fun f =>
        match parse_stats f.2 with
        | .ok (some _) => true
        | _ => false) = post.filter (fun f =>
        match parse_stats f.2 with
        | .ok (some _) => true
        | _ => false) := by
      simp [List.filter, hbad]
    have hpost : post.filter (fun f =>
        match parse_stats f.2 with
        | .ok (some _) => true
        | _ => false) = post := by
      apply filter_all_true
      intro f hf
      obtain ⟨p, hp⟩ := hgood f (List.mem_append.2 (Or.inr hf))
      rw [hp]
    rw [hpre, hcons, hpost]
  have hframe : ∀ f ∈ pre ++ (stem, fc) :: post, ¬ touches f stem := by
    intro f hf ⟨hf1, S, j, hp⟩
    rcases List.mem_append.1 hf with hf2 | hf2
    · exact hstem f (List.mem_append.2 (Or.inl hf2)) hf1
    · rcases List.mem_cons.1 hf2 with hf3 | hf3
      · rw [hf3] at hp
        rw [hbad] at hp
        simp at hp
      · exact hstem f (List.mem_append.2 (Or.inr hf3)) hf1
  rw [sync_run_eq_apply_batch tables uc t (pre ++ (stem, fc) :: post) db hok]
  obtain ⟨g1, g2, g3⟩ :=
    apply_batch_frame tables uc t (pre ++ (stem, fc) :: post) db stem hframe
  refine ⟨by rw [hB], ?_, g1, g2, g3⟩
  rw [hB]
  simpa using hcount

/-- C7 witness: one unreadable file alongside the Scenario A file: the
batch succeeds, counts one processed player, and the malformed stem gains
no player row. -/
theorem claim_C7_witness :
    (sync_batch (fun _ => true) defaultTables (fun _ => none) 0
      (exFiles ++ ("bad", .unreadable) :: []) ⟨emptyDB, emptyDB⟩ 0 0).1 = none ∧
    (sync_batch (fun _ => true) defaultTables (fun _ => none) 0
      (exFiles ++ ("bad", .unreadable) :: []) ⟨emptyDB, emptyDB⟩ 0 0).2.2.2 = 1 ∧
    playersOf (sync_run defaultTables (fun _ => none) 0
      (exFiles ++ ("bad", .unreadable) :: []) emptyDB) "bad" = none := by
  have h := claim_C7 defaultTables (fun _ => none) 0 emptyDB exFiles [] "bad"
    .unreadable rfl
    (by
      intro f hf
      have hf1 : f = ("11111111-1111-1111-1111-111111111111", .decoded scenarioA_doc) := by
        simpa [exFiles] using hf
      rw [hf1]
      exact ⟨([("minecraft:mined", [("minecraft:stone", 42)])], scenarioA_doc),
        by decide⟩)
    (by decide)
  exact ⟨h.1, h.2.1, h.2.2.1⟩

end SyncStats
